import Mathlib

/-!
# SOCKS5 server handshake (`client/socks5-server/server.go`)

A shallow embedding of `Socks5Server.handleConn`.  One call of `handleConn` is
modelled as a pure function of

* the bytes the peer sends before the stream ends or fails (`input`),
* the results of the successive `conn.Write` calls (`Env.writeResult`),
* the behaviour of the external forwarder (`Env.forwarder`): how many times it
  invokes `OnConnected`, and whether it returns an error.

The function returns the chronological list of I/O events together with the
value `handleConn` returns.  Go strings are byte sequences, so they are modelled
as `List Byte`.  The cancellation goroutine (lines 56-61) only closes the
connection; its effect on `handleConn` is a failing read or write, which the
model already covers.

The definitions come first: the Go library functions, `handleConn` stage by
stage with its 1024-byte buffer, and the vocabulary of the statements.  The
theorems follow.  `handleConn_eq_session` removes the buffer and
`handleConn_outcome` lists the ways a call can end; the statements about every
input are proved by cases on that list.
-/

namespace Socks5

/-- A Go `byte`. -/
abbrev Byte := Fin 256

/-- The byte with value `n % 256`. -/
def byteOf (n : Nat) : Byte := ⟨n % 256, Nat.mod_lt _ (by decide)⟩

/-- The bytes of an ASCII string literal. -/
def str (s : String) : List Byte := s.toList.map (fun c => byteOf c.toNat)

/-! ## Go library functions used by `handleConn` -/

/-- Go `strconv.Itoa` on a non-negative `int`: the decimal numeral. -/
def itoa (n : Nat) : List Byte := (Nat.toDigits 10 n).map (fun c => byteOf c.toNat)

/-- Go `net.ubtoa`: the decimal form of one byte, written digit by digit. -/
def ubtoa (v : Byte) : List Byte :=
  if v.val < 10 then [byteOf (v.val + 48)]
  else if v.val < 100 then [byteOf (v.val / 10 + 48), byteOf (v.val % 10 + 48)]
  else [byteOf (v.val / 100 + 48), byteOf ((v.val / 10) % 10 + 48), byteOf (v.val % 10 + 48)]

/-- Go `const hexDigit = "0123456789abcdef"`, indexed. -/
def hexDigit (d : Nat) : Byte := (str "0123456789abcdef").getD d 0

/-- Go `net.appendHex`: lower-case hexadecimal without leading zeros; the loop
runs `j` from 7 down to 0 and emits a digit whenever `i >> (j*4)` is positive. -/
def appendHex (dst : List Byte) (i : Nat) : List Byte :=
  if i = 0 then dst ++ [48]
  else dst ++ ([7, 6, 5, 4, 3, 2, 1, 0].filterMap fun j =>
    let v := i >>> (j * 4)
    if v > 0 then some (hexDigit (v &&& 0xf)) else none)

/-- Go `net.hexString`: two lower-case hexadecimal digits per byte. -/
def hexString (b : List Byte) : List Byte :=
  b.flatMap fun tn => [hexDigit (tn.val >>> 4), hexDigit (tn.val &&& 0xf)]

/-- The test `isZeros(ip[0:10]) && ip[10] == 0xff && ip[11] == 0xff` of `IP.To4`:
the address is an IPv4 address mapped into IPv6 (`::ffff:a.b.c.d`). -/
def isV4Mapped (ip : List Byte) : Bool :=
  (ip.take 10).all (fun b => b == 0) && ip.getD 10 0 == 0xff && ip.getD 11 0 == 0xff

/-- Go `net.IP.To4`: a 4-byte address is returned as is, a 16-byte IPv4-mapped
address yields its last four bytes, anything else yields `nil` (the empty slice). -/
def to4 (ip : List Byte) : List Byte :=
  if ip.length = 4 then ip
  else if ip.length = 16 ∧ isV4Mapped ip = true then ip.drop 12
  else []

/-- The inner loop of `IP.String`: `for j < 16 && p[j] == 0 && p[j+1] == 0 { j += 2 }`. -/
def zeroRunEnd (p : List Byte) : Nat → Nat → Nat
  | 0, j => j
  | fuel + 1, j =>
    if j < 16 ∧ p.getD j 0 = 0 ∧ p.getD (j + 1) 0 = 0 then zeroRunEnd p fuel (j + 2) else j

/-- The outer loop of `IP.String` that finds the longest run of zero groups:
`e0`, `e1` start at `-1`; a strictly longer run replaces the current one and the
scan resumes after it. -/
def findRun (p : List Byte) : Nat → Nat → Int → Int → Int × Int
  | 0, _, e0, e1 => (e0, e1)
  | fuel + 1, i, e0, e1 =>
    if i < 16 then
      let j := zeroRunEnd p 8 i
      if j > i ∧ (j : Int) - (i : Int) > e1 - e0 then findRun p fuel (j + 2) i j
      else findRun p fuel (i + 2) e0 e1
    else (e0, e1)

/-- The printing loop of `IP.String`: `::` in place of the run `[e0, e1)`, a single
`:` before every other group but the first, each group through `appendHex`. -/
def printGroups (p : List Byte) (e0 e1 : Int) : Nat → Nat → List Byte → List Byte
  | 0, _, b => b
  | fuel + 1, i, b =>
    if i < 16 then
      if (i : Int) = e0 then
        let b := b ++ [58, 58]
        let i := e1.toNat
        if i ≥ 16 then b
        else printGroups p e0 e1 fuel (i + 2)
          (appendHex b ((p.getD i 0).val * 256 + (p.getD (i + 1) 0).val))
      else
        let b := if i > 0 then b ++ [58] else b
        printGroups p e0 e1 fuel (i + 2)
          (appendHex b ((p.getD i 0).val * 256 + (p.getD (i + 1) 0).val))
    else b

/-- The IPv6 branch of `IP.String` for a 16-byte address. -/
def ip6String (p : List Byte) : List Byte :=
  let e := findRun p 8 0 (-1) (-1)
  let e := if e.2 - e.1 ≤ 2 then ((-1 : Int), (-1 : Int)) else e
  printGroups p e.1 e.2 8 0 []

/-- The dotted-decimal branch of `IP.String` for a 4-byte address. -/
def ip4String (p4 : List Byte) : List Byte :=
  ubtoa (p4.getD 0 0) ++ [46] ++ ubtoa (p4.getD 1 0) ++ [46] ++ ubtoa (p4.getD 2 0) ++ [46]
    ++ ubtoa (p4.getD 3 0)

/-- Go `net.IP.String`. -/
def ipString (ip : List Byte) : List Byte :=
  if ip.length = 0 then str "<nil>"
  else if (to4 ip).length = 4 then ip4String (to4 ip)
  else if ip.length ≠ 16 then str "?" ++ hexString ip
  else ip6String ip

/-- Go `net.JoinHostPort`: a host containing a colon is put in square brackets. -/
def joinHostPort (host port : List Byte) : List Byte :=
  if (58 : Byte) ∈ host then str "[" ++ host ++ str "]:" ++ port
  else host ++ str ":" ++ port

/-! ## The connection, the forwarder and the trace -/

/-- The places where `handleConn` returns an error, one per `return` statement. -/
inductive Err
  | shortFirstMsg      -- line 65
  | wrongFirstByte     -- line 69
  | shortAuthMethods   -- line 74
  | shortHello         -- line 89
  | authNotFound       -- line 93
  | shortRequest       -- line 97
  | invalidRequest     -- lines 107 and 137
  | shortIPv4          -- line 114
  | shortHostnameLen   -- line 120
  | shortHostname      -- line 124
  | shortIPv6          -- line 130
  | shortPort          -- line 141
  | hostUnreachable    -- line 159
  deriving DecidableEq, Repr

/-- What a call of `handleConn` ends with: `nil`, an error, or a run-time panic of
a slice or index expression that is out of range. -/
inductive Result
  | ok
  | error (e : Err)
  | outOfRange
  deriving DecidableEq, Repr

/-- The I/O actions of `handleConn`, in the order they happen. -/
inductive Event
  /-- `io.ReadFull(conn, buf[:want])` delivered the bytes `got`; with `want = 0`
  the call returns at once and takes nothing from the stream. -/
  | read (want : Nat) (got : List Byte)
  /-- `conn.Write(data)` in the body of `handleConn` returned `(n, err)`;
  `failed` says `err != nil`. -/
  | write (data : List Byte) (n : Nat) (failed : Bool)
  /-- `ForwardConnection` was called with this network kind and address; `unread`
  is what is left of the client stream in `ClientConn`. -/
  | forward (network address unread : List Byte)
  /-- The forwarder invoked `OnConnected`, whose `conn.Write(data)` returned `(n, err)`. -/
  | onConnected (data : List Byte) (n : Nat) (failed : Bool)
  deriving DecidableEq, Repr

/-- Everything outside `handleConn` apart from the bytes the peer sends. -/
structure Env where
  /-- Result `(n, err != nil)` of the `k`-th `conn.Write` call (counted from 0) on `data`. -/
  writeResult : Nat → List Byte → Nat × Bool
  /-- Behaviour of `ForwardConnection` on a request: the number of times it invokes
  `OnConnected`, and whether it then returns an error. -/
  forwarder : (network address unread : List Byte) → Nat × Bool

/-- The local state of one call of `handleConn`. -/
structure St where
  /-- Bytes the peer still sends before its stream ends or fails. -/
  input : List Byte
  /-- The scratch buffer `buf`. -/
  buf : List Byte
  /-- Events so far. -/
  trace : List Event
  /-- Number of `conn.Write` calls so far. -/
  nwrites : Nat

/-- A finished call: its events and its return value. -/
structure Run where
  trace : List Event
  result : Result
  deriving DecidableEq, Repr

/-- Outcome of `io.ReadFull(conn, buf[:k])`. -/
inductive ReadRes
  /-- `n == k && err == nil`. -/
  | full (st : St)
  /-- `n != k || err != nil`: the stream ended or failed first. -/
  | short (st : St)
  /-- The slice expression `buf[:k]` is out of range. -/
  | outOfRange

/-- `io.ReadFull(conn, buf[:k])`: fills `buf[:k]` with the next `k` bytes of the
stream, or with what is left of it when that is fewer. -/
def readFull (st : St) (k : Nat) : ReadRes :=
  if k ≤ st.buf.length then
    if k ≤ st.input.length then
      .full { st with
        input := st.input.drop k
        buf := st.input.take k ++ st.buf.drop k
        trace := st.trace ++ [.read k (st.input.take k)] }
    else
      .short { st with
        input := []
        buf := st.input ++ st.buf.drop st.input.length
        trace := st.trace ++ [.read k st.input] }
  else .outOfRange

/-- `conn.Write(data)` in the body of `handleConn`; returns `(n, err != nil)`. -/
def connWrite (env : Env) (st : St) (data : List Byte) : (Nat × Bool) × St :=
  let r := env.writeResult st.nwrites data
  (r, { st with trace := st.trace ++ [.write data r.1 r.2], nwrites := st.nwrites + 1 })

/-- One invocation of the closure `OnConnected: func() { _, _ = conn.Write(resp) }`. -/
def onConnected (env : Env) (st : St) (resp : List Byte) : St :=
  let r := env.writeResult st.nwrites resp
  { st with trace := st.trace ++ [.onConnected resp r.1 r.2], nwrites := st.nwrites + 1 }

/-- The forwarder invoking `OnConnected` `k` times in a row. -/
def callbacks (env : Env) (resp : List Byte) : Nat → St → St
  | 0, st => st
  | k + 1, st => callbacks env resp k (onConnected env st resp)

/-- The loop of lines 77-83: `auth` starts as `0xff` and becomes `0` at every index
`i < cntAuth` with `buf[i] == 0`; `none` is an index out of range. -/
def authLoop (buf : List Byte) : Nat → Nat → Byte → Option Byte
  | 0, _, auth => some auth
  | left + 1, i, auth =>
    match buf[i]? with
    | none => none
    | some b => authLoop buf left (i + 1) (if b = 0 then 0 else auth)

/-- Go `make([]byte, n)`: `n` zero bytes. -/
def make (n : Nat) : List Byte := List.replicate n 0

/-- Lines 100-102: `resp := make([]byte, 10); resp[0] = 5; resp[3] = 1`. -/
def respInit : List Byte := ((make 10).set 0 5).set 3 1

/-! ## `handleConn`, stage by stage -/

/-- Lines 147-162: the call of `ForwardConnection` and the reply on its error. -/
def forwardStage (env : Env) (st : St) (resp address : List Byte) : Run :=
  let st1 := { st with trace := st.trace ++ [.forward (str "tcp") address st.input] }
  let beh := env.forwarder (str "tcp") address st.input
  let st2 := callbacks env resp beh.1 st1
  if beh.2 then
    let st3 := (connWrite env st2 (resp.set 1 4)).2
    ⟨st3.trace, .error .hostUnreachable⟩
  else ⟨st2.trace, .ok⟩

/-- Lines 140-145: the two port bytes, big-endian, and the `host:port` string. -/
def portStage (env : Env) (st : St) (resp host : List Byte) : Run :=
  match readFull st 2 with
  | .outOfRange => ⟨st.trace, .outOfRange⟩
  | .short st => ⟨st.trace, .error .shortPort⟩
  | .full st =>
    match st.buf[0]?, st.buf[1]? with
    | some b0, some b1 =>
      let port := itoa (b0.val * 256 + b1.val)
      let address := joinHostPort host port
      forwardStage env st resp address
    | _, _ => ⟨st.trace, .outOfRange⟩

/-- Lines 110-138: the address, by address type `atyp = buf[3]`. -/
def addressStage (env : Env) (st : St) (resp : List Byte) (atyp : Byte) : Run :=
  if atyp = 1 then
    match readFull st 4 with
    | .outOfRange => ⟨st.trace, .outOfRange⟩
    | .short st => ⟨st.trace, .error .shortIPv4⟩
    | .full st => portStage env st resp (ipString (st.buf.take 4))
  else if atyp = 3 then
    match readFull st 1 with
    | .outOfRange => ⟨st.trace, .outOfRange⟩
    | .short st => ⟨st.trace, .error .shortHostnameLen⟩
    | .full st =>
      match st.buf[0]? with
      | none => ⟨st.trace, .outOfRange⟩
      | some b0 =>
        let l := b0.val
        match readFull st l with
        | .outOfRange => ⟨st.trace, .outOfRange⟩
        | .short st => ⟨st.trace, .error .shortHostname⟩
        | .full st => portStage env st resp (st.buf.take l)
  else if atyp = 4 then
    match readFull st 16 with
    | .outOfRange => ⟨st.trace, .outOfRange⟩
    | .short st => ⟨st.trace, .error .shortIPv6⟩
    | .full st => portStage env st resp (ipString (st.buf.take 16))
  else
    let st := (connWrite env st (resp.set 1 7)).2
    ⟨st.trace, .error .invalidRequest⟩

/-- Lines 96-108: the 4-byte request header `[5, 1, 0, atyp]`. -/
def requestStage (env : Env) (st : St) : Run :=
  match readFull st 4 with
  | .outOfRange => ⟨st.trace, .outOfRange⟩
  | .short st => ⟨st.trace, .error .shortRequest⟩
  | .full st =>
    let resp := respInit
    match st.buf[0]?, st.buf[1]?, st.buf[2]?, st.buf[3]? with
    | some b0, some b1, some b2, some b3 =>
      if b0 ≠ 5 ∨ b1 ≠ 1 ∨ b2 ≠ 0 then
        let st := (connWrite env st (resp.set 1 7)).2
        ⟨st.trace, .error .invalidRequest⟩
      else addressStage env st resp b3
    | _, _, _, _ => ⟨st.trace, .outOfRange⟩

/-- Lines 77-94: method selection, the 2-byte reply, and the check of the choice. -/
def methodStage (env : Env) (st : St) (cntAuth : Nat) : Run :=
  match authLoop st.buf cntAuth 0 0xff with
  | none => ⟨st.trace, .outOfRange⟩
  | some auth =>
    if 2 ≤ st.buf.length then
      let st := { st with buf := (st.buf.set 0 5).set 1 auth }
      let (r, st) := connWrite env st (st.buf.take 2)
      if r.1 ≠ 2 ∨ r.2 then ⟨st.trace, .error .shortHello⟩
      else if auth ≠ 0 then ⟨st.trace, .error .authNotFound⟩
      else requestStage env st
    else ⟨st.trace, .outOfRange⟩

/-- The state in which `handleConn` starts: `buf := make([]byte, 1024)`. -/
def initSt (input : List Byte) : St :=
  { input := input, buf := make 1024, trace := [], nwrites := 0 }

/-- `Socks5Server.handleConn` (lines 55-163) on a connection whose peer sends
`input` and then stops. -/
def handleConn (env : Env) (input : List Byte) : Run :=
  match readFull (initSt input) 2 with
  | .outOfRange => ⟨[], .outOfRange⟩
  | .short st => ⟨st.trace, .error .shortFirstMsg⟩
  | .full st =>
    match st.buf[0]?, st.buf[1]? with
    | some b0, some b1 =>
      if b0 ≠ 5 then ⟨st.trace, .error .wrongFirstByte⟩
      else
        let cntAuth := b1.val
        match readFull st cntAuth with
        | .outOfRange => ⟨st.trace, .outOfRange⟩
        | .short st => ⟨st.trace, .error .shortAuthMethods⟩
        | .full st => methodStage env st cntAuth
    | _, _ => ⟨st.trace, .outOfRange⟩

/-! ## Observations on a run -/

/-- The byte chunks passed to `conn.Write`, by `handleConn` itself or by its
`OnConnected` closure, in order. -/
def written : List Event → List (List Byte)
  | [] => []
  | .write d _ _ :: t => d :: written t
  | .onConnected d _ _ :: t => d :: written t
  | _ :: t => written t

/-- The read requests made, in order: requested count and bytes delivered. -/
def reads : List Event → List (Nat × List Byte)
  | [] => []
  | .read k got :: t => (k, got) :: reads t
  | _ :: t => reads t

/-- The calls of `ForwardConnection`: network kind, address, unread client bytes. -/
def forwardCalls : List Event → List (List Byte × List Byte × List Byte)
  | [] => []
  | .forward n a u :: t => (n, a, u) :: forwardCalls t
  | _ :: t => forwardCalls t

/-- The 10-byte replies written by the body of `handleConn` (the error paths). -/
def errorReplies : List Event → List (List Byte)
  | [] => []
  | .write d _ _ :: t => if d.length = 10 then d :: errorReplies t else errorReplies t
  | _ :: t => errorReplies t

/-- The replies written by the readiness callback. -/
def callbackReplies : List Event → List (List Byte)
  | [] => []
  | .onConnected d _ _ :: t => d :: callbackReplies t
  | _ :: t => callbackReplies t

/-- The 10-byte replies written in a session, whoever wrote them. -/
def replies (tr : List Event) : List (List Byte) :=
  (written tr).filter fun d => d.length = 10

/-! ## Vocabulary of the statements -/

/-- An environment in which every write succeeds in full, with the given forwarder. -/
def envOk (fwd : List Byte → List Byte → List Byte → Nat × Bool) : Env :=
  { writeResult := fun _ d => (d.length, false), forwarder := fwd }

/-- The selection made by the loop of lines 77-83 on the method list `ms`. -/
def selected (ms : List Byte) : Byte := if (0 : Byte) ∈ ms then 0 else 0xff

/-- The scratch buffer after the greeting `[5, n] ++ ms` was read into it and the
method reply was stored in its first two bytes (lines 85-86). -/
def helloBuf (n : Byte) (ms : List Byte) : List Byte :=
  ((ms ++ (5 :: n :: (make 1024).drop 2).drop n.val).set 0 5).set 1 (selected ms)

/-- The events of `k` successive invocations of `OnConnected`, the first of them
being write number `nw` of the session. -/
def cbEvents (env : Env) (resp : List Byte) : Nat → Nat → List Event
  | _, 0 => []
  | nw, k + 1 =>
    .onConnected resp (env.writeResult nw resp).1 (env.writeResult nw resp).2
      :: cbEvents env resp (nw + 1) k

/-- A list of events that are all reads. -/
def readsOnly (l : List Event) : Prop := ∀ e ∈ l, ∃ k got, e = Event.read k got

/-- The three shapes the events after the method reply can take: reads only; reads
and one status-7 reply; or reads, the forwarder call with its callback writes, and
a status-4 reply exactly when the forwarder returned an error. -/
def ReqSuffix (env : Env) (tail : List Event) : Prop :=
  ∃ rd, readsOnly rd ∧
    (tail = rd
      ∨ (∃ n f, tail = rd ++ [.write [5, 7, 0, 1, 0, 0, 0, 0, 0, 0] n f])
      ∨ (∃ addr unread nw n f, tail = rd ++ .forward (str "tcp") addr unread ::
          (cbEvents env [5, 0, 0, 1, 0, 0, 0, 0, 0, 0] nw
              (env.forwarder (str "tcp") addr unread).1
            ++ if (env.forwarder (str "tcp") addr unread).2 = true
               then [.write [5, 4, 0, 1, 0, 0, 0, 0, 0, 0] n f] else [])))

/-- The events of a completed greeting exchange in which method 0 was selected. -/
def helloTrace (n : Byte) (ms : List Byte) : List Event :=
  [.read 2 [5, n], .read n.val ms, .write [5, 0] 2 false]

/-- The state in which the request stage starts after the greeting `[5, n] ++ ms`
was answered with `[5, 0]` and `rest` is what the peer still sends. -/
def negotiated (n : Byte) (ms rest : List Byte) : St :=
  ⟨rest, helloBuf n ms, helloTrace n ms, 1⟩

/-- The decimal numeral of `n`, without leading zeros. -/
def decimal (n : Nat) : List Byte := str (toString n)

/-- The run of the forwarding step (lines 147-162) from a session that has the
events `tr` behind it, made `nw` writes, and left `unread` in the stream: the call,
the callback writes, and the status-4 reply when the forwarder returns an error. -/
def forwardRun (env : Env) (tr : List Event) (address unread : List Byte) (nw : Nat) : Run :=
  let beh := env.forwarder (str "tcp") address unread
  let tr := tr ++ .forward (str "tcp") address unread ::
    cbEvents env [5, 0, 0, 1, 0, 0, 0, 0, 0, 0] nw beh.1
  if beh.2 = true then
    let w := env.writeResult (nw + beh.1) [5, 4, 0, 1, 0, 0, 0, 0, 0, 0]
    ⟨tr ++ [.write [5, 4, 0, 1, 0, 0, 0, 0, 0, 0] w.1 w.2], .error .hostUnreachable⟩
  else ⟨tr, .ok⟩

/-- The address bytes `addr` of a request are complete for the address type `atyp`:
4 bytes for type 1, a length byte and that many bytes for type 3, 16 bytes for
type 4. -/
def ValidAddr (atyp : Byte) (addr : List Byte) : Prop :=
  (atyp = 1 ∧ addr.length = 4)
    ∨ (atyp = 3 ∧ ∃ l payload, addr = l :: payload ∧ payload.length = l.val)
    ∨ (atyp = 4 ∧ addr.length = 16)

/-- The host string `handleConn` derives from a complete address (lines 116, 126, 132). -/
def hostText (atyp : Byte) (addr : List Byte) : List Byte :=
  if atyp = 3 then addr.drop 1 else ipString addr

/-- The reads `handleConn` makes for a complete address. -/
def addrReads (atyp : Byte) (addr : List Byte) : List Event :=
  if atyp = 3 then [.read 1 (addr.take 1), .read (addr.length - 1) (addr.drop 1)]
  else [.read addr.length addr]

/-- The events before the forwarder call in a session with a valid request. -/
def requestTrace (n : Byte) (ms : List Byte) (atyp : Byte) (addr : List Byte)
    (hi lo : Byte) : List Event :=
  helloTrace n ms ++ [.read 4 [5, 1, 0, atyp]] ++ addrReads atyp addr ++ [.read 2 [hi, lo]]

/-- The address string of a valid request (lines 144-145). -/
def target (atyp : Byte) (addr : List Byte) (hi lo : Byte) : List Byte :=
  joinHostPort (hostText atyp addr) (itoa (hi.val * 256 + lo.val))

/-- The bytes of a session with a valid greeting and a valid request, followed by
`rest`. -/
def validInput (n : Byte) (ms : List Byte) (atyp : Byte) (addr : List Byte) (hi lo : Byte)
    (rest : List Byte) : List Byte :=
  5 :: n :: ms ++ (5 :: 1 :: 0 :: atyp :: (addr ++ hi :: lo :: rest))

/-- A forwarder that never invokes the callback and returns no error. -/
def fwdSilent : List Byte → List Byte → List Byte → Nat × Bool := fun _ _ _ => (0, false)

/-- A forwarder that invokes the callback once and returns no error. -/
def fwdConnects : List Byte → List Byte → List Byte → Nat × Bool := fun _ _ _ => (1, false)

/-- A forwarder that fails before it invokes the callback. -/
def fwdFails : List Byte → List Byte → List Byte → Nat × Bool := fun _ _ _ => (0, true)

/-- A forwarder that invokes the callback once and then returns an error, as when
the path was established and the relay failed afterwards. -/
def fwdConnectsThenFails : List Byte → List Byte → List Byte → Nat × Bool :=
  fun _ _ _ => (1, true)

/-- A byte of IPv6 text: a colon or a lower-case hexadecimal digit. -/
def isIP6Char (x : Byte) : Prop := x = 58 ∨ x ∈ str "0123456789abcdef"

/-- The forwarder keeps its contract: it invokes the readiness callback at most
once, and not at all when it returns an error. -/
def Obedient (env : Env) : Prop :=
  ∀ network address unread,
    (env.forwarder network address unread).1 ≤ 1 ∧
      ((env.forwarder network address unread).2 = true →
        (env.forwarder network address unread).1 = 0)

/-! ## A description of `handleConn` without the scratch buffer -/

/-- The port step and the forwarder call, without the scratch buffer: `tr` are the
events so far, `nw` the writes so far, `host` the host string, and the last
argument what the peer still sends. -/
def sessionPort (env : Env) (tr : List Event) (nw : Nat) (host : List Byte) : List Byte → Run
  | hi :: lo :: rest =>
    forwardRun env (tr ++ [.read 2 [hi, lo]])
      (joinHostPort host (itoa (hi.val * 256 + lo.val))) rest nw
  | input => ⟨tr ++ [.read 2 input], .error .shortPort⟩

/-- The address step, without the scratch buffer. -/
def sessionAddress (env : Env) (tr : List Event) (nw : Nat) (atyp : Byte)
    (input : List Byte) : Run :=
  if atyp = 1 then
    if 4 ≤ input.length then
      sessionPort env (tr ++ [.read 4 (input.take 4)]) nw (ipString (input.take 4))
        (input.drop 4)
    else ⟨tr ++ [.read 4 input], .error .shortIPv4⟩
  else if atyp = 3 then
    match input with
    | [] => ⟨tr ++ [.read 1 []], .error .shortHostnameLen⟩
    | l :: r =>
      if l.val ≤ r.length then
        sessionPort env (tr ++ [.read 1 [l], .read l.val (r.take l.val)]) nw (r.take l.val)
          (r.drop l.val)
      else ⟨tr ++ [.read 1 [l], .read l.val r], .error .shortHostname⟩
  else if atyp = 4 then
    if 16 ≤ input.length then
      sessionPort env (tr ++ [.read 16 (input.take 16)]) nw (ipString (input.take 16))
        (input.drop 16)
    else ⟨tr ++ [.read 16 input], .error .shortIPv6⟩
  else
    ⟨tr ++ [.write [5, 7, 0, 1, 0, 0, 0, 0, 0, 0]
        (env.writeResult nw [5, 7, 0, 1, 0, 0, 0, 0, 0, 0]).1
        (env.writeResult nw [5, 7, 0, 1, 0, 0, 0, 0, 0, 0]).2],
      .error .invalidRequest⟩

/-- The request step, without the scratch buffer. -/
def sessionRequest (env : Env) (tr : List Event) (nw : Nat) : List Byte → Run
  | v :: c :: r :: a :: rest =>
    if v ≠ 5 ∨ c ≠ 1 ∨ r ≠ 0 then
      ⟨tr ++ [.read 4 [v, c, r, a], .write [5, 7, 0, 1, 0, 0, 0, 0, 0, 0]
          (env.writeResult nw [5, 7, 0, 1, 0, 0, 0, 0, 0, 0]).1
          (env.writeResult nw [5, 7, 0, 1, 0, 0, 0, 0, 0, 0]).2],
        .error .invalidRequest⟩
    else sessionAddress env (tr ++ [.read 4 [v, c, r, a]]) nw a rest
  | input => ⟨tr ++ [.read 4 input], .error .shortRequest⟩

/-- A description of `handleConn` by cases on the peer's bytes alone, without the
scratch buffer and without out-of-range outcomes; `handleConn_eq_session` proves
that it is what `handleConn` does on every input. -/
def session (env : Env) : List Byte → Run
  | b0 :: b1 :: rest =>
    if b0 ≠ 5 then ⟨[.read 2 [b0, b1]], .error .wrongFirstByte⟩
    else if b1.val ≤ rest.length then
      if (env.writeResult 0 [5, selected (rest.take b1.val)]).1 ≠ 2
          ∨ (env.writeResult 0 [5, selected (rest.take b1.val)]).2 = true then
        ⟨[.read 2 [b0, b1], .read b1.val (rest.take b1.val),
            .write [5, selected (rest.take b1.val)]
              (env.writeResult 0 [5, selected (rest.take b1.val)]).1
              (env.writeResult 0 [5, selected (rest.take b1.val)]).2],
          .error .shortHello⟩
      else if selected (rest.take b1.val) ≠ 0 then
        ⟨[.read 2 [b0, b1], .read b1.val (rest.take b1.val),
            .write [5, selected (rest.take b1.val)]
              (env.writeResult 0 [5, selected (rest.take b1.val)]).1
              (env.writeResult 0 [5, selected (rest.take b1.val)]).2],
          .error .authNotFound⟩
      else
        sessionRequest env
          [.read 2 [b0, b1], .read b1.val (rest.take b1.val),
            .write [5, selected (rest.take b1.val)]
              (env.writeResult 0 [5, selected (rest.take b1.val)]).1
              (env.writeResult 0 [5, selected (rest.take b1.val)]).2]
          1 (rest.drop b1.val)
    else ⟨[.read 2 [b0, b1], .read b1.val rest], .error .shortAuthMethods⟩
  | input => ⟨[.read 2 input], .error .shortFirstMsg⟩

/-! ## The outcomes of a call -/

/-- The events of the forwarding step of a session whose only earlier write was
the method reply: the call, the callback writes, the status-4 reply on an error. -/
def forwardTail (env : Env) (address unread : List Byte) : List Event :=
  .forward (str "tcp") address unread ::
    (cbEvents env [5, 0, 0, 1, 0, 0, 0, 0, 0, 0] 1 (env.forwarder (str "tcp") address unread).1
      ++ if (env.forwarder (str "tcp") address unread).2 = true then
          [.write [5, 4, 0, 1, 0, 0, 0, 0, 0, 0]
            (env.writeResult (1 + (env.forwarder (str "tcp") address unread).1)
              [5, 4, 0, 1, 0, 0, 0, 0, 0, 0]).1
            (env.writeResult (1 + (env.forwarder (str "tcp") address unread).1)
              [5, 4, 0, 1, 0, 0, 0, 0, 0, 0]).2]
        else [])

/-- The value `handleConn` returns after the forwarding step. -/
def forwardResult (env : Env) (address unread : List Byte) : Result :=
  if (env.forwarder (str "tcp") address unread).2 = true then .error .hostUnreachable else .ok

/-- The ways the request stage can end: on the bytes `input` the peer sends after
the method reply, the stage produces the events `tail` and the result `res`. -/
inductive ReqOutcome (env : Env) : List Byte → List Event → Result → Prop
  | shortRequest (input : List Byte) (h : input.length < 4) :
      ReqOutcome env input [.read 4 input] (.error .shortRequest)
  | badHeader (v c r a : Byte) (rest : List Byte) (h : v ≠ 5 ∨ c ≠ 1 ∨ r ≠ 0) :
      ReqOutcome env (v :: c :: r :: a :: rest)
        [.read 4 [v, c, r, a], .write [5, 7, 0, 1, 0, 0, 0, 0, 0, 0]
          (env.writeResult 1 [5, 7, 0, 1, 0, 0, 0, 0, 0, 0]).1
          (env.writeResult 1 [5, 7, 0, 1, 0, 0, 0, 0, 0, 0]).2]
        (.error .invalidRequest)
  | badAtyp (a : Byte) (rest : List Byte) (h1 : a ≠ 1) (h3 : a ≠ 3) (h4 : a ≠ 4) :
      ReqOutcome env (5 :: 1 :: 0 :: a :: rest)
        [.read 4 [5, 1, 0, a], .write [5, 7, 0, 1, 0, 0, 0, 0, 0, 0]
          (env.writeResult 1 [5, 7, 0, 1, 0, 0, 0, 0, 0, 0]).1
          (env.writeResult 1 [5, 7, 0, 1, 0, 0, 0, 0, 0, 0]).2]
        (.error .invalidRequest)
  | shortIPv4 (rest : List Byte) (h : rest.length < 4) :
      ReqOutcome env (5 :: 1 :: 0 :: 1 :: rest) [.read 4 [5, 1, 0, 1], .read 4 rest]
        (.error .shortIPv4)
  | shortHostnameLen :
      ReqOutcome env [5, 1, 0, 3] [.read 4 [5, 1, 0, 3], .read 1 []]
        (.error .shortHostnameLen)
  | shortHostname (l : Byte) (r : List Byte) (h : r.length < l.val) :
      ReqOutcome env (5 :: 1 :: 0 :: 3 :: l :: r)
        [.read 4 [5, 1, 0, 3], .read 1 [l], .read l.val r] (.error .shortHostname)
  | shortIPv6 (rest : List Byte) (h : rest.length < 16) :
      ReqOutcome env (5 :: 1 :: 0 :: 4 :: rest) [.read 4 [5, 1, 0, 4], .read 16 rest]
        (.error .shortIPv6)
  | shortPort (atyp : Byte) (addr rest : List Byte) (hv : ValidAddr atyp addr)
      (h : rest.length < 2) :
      ReqOutcome env (5 :: 1 :: 0 :: atyp :: (addr ++ rest))
        ([.read 4 [5, 1, 0, atyp]] ++ addrReads atyp addr ++ [.read 2 rest])
        (.error .shortPort)
  | forwarded (atyp : Byte) (addr : List Byte) (hi lo : Byte) (rest : List Byte)
      (hv : ValidAddr atyp addr) :
      ReqOutcome env (5 :: 1 :: 0 :: atyp :: (addr ++ hi :: lo :: rest))
        ([.read 4 [5, 1, 0, atyp]] ++ addrReads atyp addr ++ [.read 2 [hi, lo]]
          ++ forwardTail env (target atyp addr hi lo) rest)
        (forwardResult env (target atyp addr hi lo) rest)

/-- The ways a call of `handleConn` can end: on the bytes `input` of the peer it
produces the run given. -/
inductive Outcome (env : Env) : List Byte → Run → Prop
  | shortFirstMsg (input : List Byte) (h : input.length < 2) :
      Outcome env input ⟨[.read 2 input], .error .shortFirstMsg⟩
  | wrongFirstByte (b0 b1 : Byte) (rest : List Byte) (h : b0 ≠ 5) :
      Outcome env (b0 :: b1 :: rest) ⟨[.read 2 [b0, b1]], .error .wrongFirstByte⟩
  | shortAuthMethods (n : Byte) (rest : List Byte) (h : rest.length < n.val) :
      Outcome env (5 :: n :: rest)
        ⟨[.read 2 [5, n], .read n.val rest], .error .shortAuthMethods⟩
  | shortHello (n : Byte) (ms rest : List Byte) (hlen : ms.length = n.val)
      (hw : (env.writeResult 0 [5, selected ms]).1 ≠ 2
        ∨ (env.writeResult 0 [5, selected ms]).2 = true) :
      Outcome env (5 :: n :: ms ++ rest)
        ⟨[.read 2 [5, n], .read n.val ms,
            .write [5, selected ms] (env.writeResult 0 [5, selected ms]).1
              (env.writeResult 0 [5, selected ms]).2],
          .error .shortHello⟩
  | authNotFound (n : Byte) (ms rest : List Byte) (hlen : ms.length = n.val)
      (hw : env.writeResult 0 [5, 0xff] = (2, false)) (h0 : (0 : Byte) ∉ ms) :
      Outcome env (5 :: n :: ms ++ rest)
        ⟨[.read 2 [5, n], .read n.val ms, .write [5, 0xff] 2 false], .error .authNotFound⟩
  | request (n : Byte) (ms rest : List Byte) (tail : List Event) (res : Result)
      (hlen : ms.length = n.val) (hw : env.writeResult 0 [5, 0] = (2, false))
      (h0 : (0 : Byte) ∈ ms) (hr : ReqOutcome env rest tail res) :
      Outcome env (5 :: n :: ms ++ rest) ⟨helloTrace n ms ++ tail, res⟩

/-! ## Predicates on events, replies and environments -/

/-- A 10-byte reply of the documented form, with status 0, 4 or 7. -/
def IsReply (r : List Byte) : Prop :=
  ∃ status : Byte, (status = 0 ∨ status = 4 ∨ status = 7)
    ∧ r = [5, status, 0, 1, 0, 0, 0, 0, 0, 0]

/-- The bytes taken from the client stream by the reads of a trace. -/
def consumed (tr : List Event) : List Byte := (reads tr).flatMap fun p => p.2

/-- An environment in which every write of a 10-byte reply fails and every other
write succeeds in full. -/
def envRepliesFail (fwd : List Byte → List Byte → List Byte → Nat × Bool) : Env :=
  { writeResult := fun _ d => if d.length = 10 then (0, true) else (d.length, false),
    forwarder := fwd }

/-- An environment in which every write fails without writing a byte. -/
def envWritesFail (fwd : List Byte → List Byte → List Byte → Nat × Bool) : Env :=
  { writeResult := fun _ _ => (0, true), forwarder := fwd }

/-- A read that delivered fewer bytes than were requested. -/
def IsShort : Event → Prop
  | .read k got => got.length < k
  | _ => False

/-- A list of events without a short read. -/
def NoShort (l : List Event) : Prop := ∀ e ∈ l, ¬ IsShort e

/-- The errors `handleConn` returns on a short read (lines 65, 74, 97, 114, 120,
124, 130 and 141). -/
def IsReadError (e : Err) : Prop :=
  e = .shortFirstMsg ∨ e = .shortAuthMethods ∨ e = .shortRequest ∨ e = .shortIPv4
    ∨ e = .shortHostnameLen ∨ e = .shortHostname ∨ e = .shortIPv6 ∨ e = .shortPort

/-- A run in which a short read, if there is one, is the last event, ends the call
with a read error, and keeps the forwarder from being called. -/
def Tidy (tr : List Event) (res : Result) : Prop :=
  NoShort tr ∨
    ∃ pre k got, tr = pre ++ [.read k got] ∧ got.length < k ∧ NoShort pre
      ∧ forwardCalls tr = [] ∧ ∃ e, res = .error e ∧ IsReadError e

/-- The reads of a session with a valid greeting and a valid request were made:
the greeting with version 5 and method 0 among the methods, the header
`[5, 1, 0, atyp]`, the complete address and the two port bytes. -/
def ValidReads (tr : List Event) (n : Byte) (ms : List Byte) (atyp : Byte)
    (addr : List Byte) (hi lo : Byte) : Prop :=
  ms.length = n.val ∧ (0 : Byte) ∈ ms ∧ ValidAddr atyp addr
    ∧ reads tr = reads (requestTrace n ms atyp addr hi lo)

set_option maxRecDepth 1000000

/-! ## Basic facts about reads, the method loop and the buffer -/

theorem length_make (n : Nat) : (make n).length = n := by
  simp [make]

theorem respInit_eq : respInit = [5, 0, 0, 1, 0, 0, 0, 0, 0, 0] := by decide

theorem readFull_full (st : St) (k : Nat) (bytes rest : List Byte)
    (hbuf : k ≤ st.buf.length) (hin : st.input = bytes ++ rest) (hlen : bytes.length = k) :
    readFull st k
      = .full ⟨rest, bytes ++ st.buf.drop k, st.trace ++ [.read k bytes], st.nwrites⟩ := by
  subst hlen
  simp [readFull, hbuf, hin]

theorem readFull_short (st : St) (k : Nat)
    (hbuf : k ≤ st.buf.length) (hin : st.input.length < k) :
    readFull st k = .short ⟨[], st.input ++ st.buf.drop st.input.length,
      st.trace ++ [.read k st.input], st.nwrites⟩ := by
  simp [readFull, hbuf, Nat.not_le.mpr hin]

theorem authLoop_scan (pre ms tail : List Byte) (a : Byte) :
    authLoop (pre ++ ms ++ tail) ms.length pre.length a
      = some (if (0 : Byte) ∈ ms then 0 else a) := by
  induction ms generalizing pre a with
  | nil => simp [authLoop]
  | cons m ms ih =>
    have h := ih (pre ++ [m]) (if m = 0 then 0 else a)
    simp only [List.append_assoc, List.singleton_append, List.length_append,
      List.length_singleton, List.cons_append, List.nil_append] at h
    simp only [authLoop, List.length_cons, List.append_assoc, List.cons_append]
    rw [List.getElem?_append_right (Nat.le_refl _)]
    simp only [Nat.sub_self, List.getElem?_cons_zero]
    rw [h]
    by_cases hm : m = 0
    · simp [hm]
    · have : ¬ (0 = m) := fun h => hm h.symm
      simp [hm, this]

theorem take_two_set (buf : List Byte) (a b : Byte) (h : 2 ≤ buf.length) :
    ((buf.set 0 a).set 1 b).take 2 = [a, b] := by
  match buf, h with
  | _ :: _ :: _, _ => simp

theorem helloBuf_length (n : Byte) (ms : List Byte) (hlen : ms.length = n.val) :
    (helloBuf n ms).length = 1024 := by
  have := n.isLt
  simp [helloBuf, hlen, length_make]
  omega

/-! ## What each stage does on a well-formed prefix of the stream -/

theorem methodStage_eq (env : Env) (st : St) (ms tail : List Byte)
    (hbuf : st.buf = ms ++ tail) (hlen : 2 ≤ st.buf.length) :
    methodStage env st ms.length =
      (let r := env.writeResult st.nwrites [5, selected ms]
       let tr := st.trace ++ [.write [5, selected ms] r.1 r.2]
       if r.1 ≠ 2 ∨ r.2 = true then ⟨tr, .error .shortHello⟩
       else if selected ms ≠ 0 then ⟨tr, .error .authNotFound⟩
       else requestStage env ⟨st.input, (st.buf.set 0 5).set 1 (selected ms), tr,
         st.nwrites + 1⟩) := by
  have h := authLoop_scan [] ms tail 0xff
  simp only [List.nil_append, List.length_nil] at h
  unfold methodStage
  rw [hbuf, h, ← hbuf]
  simp only [hlen, if_true, connWrite, take_two_set _ _ _ hlen, selected]

theorem handleConn_greeting (env : Env) (n : Byte) (ms rest : List Byte)
    (hlen : ms.length = n.val) :
    handleConn env (5 :: n :: ms ++ rest) =
      methodStage env ⟨rest, ms ++ (5 :: n :: (make 1024).drop 2).drop n.val,
        [.read 2 [5, n], .read n.val ms], 0⟩ n.val := by
  have hn := n.isLt
  unfold handleConn
  rw [readFull_full (initSt (5 :: n :: ms ++ rest)) 2 [5, n] (ms ++ rest)
    (by simp [initSt, length_make]) (by simp [initSt]) rfl]
  simp only [initSt, List.cons_append, List.nil_append, List.getElem?_cons_zero,
    List.getElem?_cons_succ, ne_eq, not_true_eq_false, if_false]
  rw [readFull_full _ n.val ms rest (by simp [length_make]; omega) rfl hlen]
  simp

/-- The whole greeting exchange: after `[5, n] ++ ms` the selection is written, and
the request stage follows exactly when that write is complete and method 0 was
offered. -/
theorem handleConn_hello (env : Env) (n : Byte) (ms rest : List Byte)
    (hlen : ms.length = n.val) :
    handleConn env (5 :: n :: ms ++ rest) =
      (let r := env.writeResult 0 [5, selected ms]
       let tr := [.read 2 [5, n], .read n.val ms, .write [5, selected ms] r.1 r.2]
       if r.1 ≠ 2 ∨ r.2 = true then ⟨tr, .error .shortHello⟩
       else if selected ms ≠ 0 then ⟨tr, .error .authNotFound⟩
       else requestStage env ⟨rest, helloBuf n ms, tr, 1⟩) := by
  have hn := n.isLt
  rw [handleConn_greeting env n ms rest hlen, ← hlen]
  rw [methodStage_eq env _ ms _ rfl (by simp [length_make]; omega)]
  simp [helloBuf, hlen]

theorem requestStage_header (env : Env) (st : St) (v c r a : Byte) (rest : List Byte)
    (hbuf : 4 ≤ st.buf.length) (hin : st.input = v :: c :: r :: a :: rest) :
    requestStage env st =
      (let tr := st.trace ++ [.read 4 [v, c, r, a]]
       if v ≠ 5 ∨ c ≠ 1 ∨ r ≠ 0 then
         let w := env.writeResult st.nwrites [5, 7, 0, 1, 0, 0, 0, 0, 0, 0]
         ⟨tr ++ [.write [5, 7, 0, 1, 0, 0, 0, 0, 0, 0] w.1 w.2], .error .invalidRequest⟩
       else addressStage env ⟨rest, [v, c, r, a] ++ st.buf.drop 4, tr, st.nwrites⟩
         respInit a) := by
  unfold requestStage
  rw [readFull_full st 4 [v, c, r, a] rest hbuf (by simp [hin]) rfl]
  simp [connWrite, respInit_eq]

theorem requestStage_short (env : Env) (st : St)
    (hbuf : 4 ≤ st.buf.length) (hin : st.input.length < 4) :
    requestStage env st = ⟨st.trace ++ [.read 4 st.input], .error .shortRequest⟩ := by
  unfold requestStage
  rw [readFull_short st 4 hbuf hin]

theorem portStage_eq (env : Env) (st : St) (resp host : List Byte) (hi lo : Byte)
    (rest : List Byte) (hbuf : 2 ≤ st.buf.length) (hin : st.input = hi :: lo :: rest) :
    portStage env st resp host =
      forwardStage env ⟨rest, [hi, lo] ++ st.buf.drop 2, st.trace ++ [.read 2 [hi, lo]],
        st.nwrites⟩ resp (joinHostPort host (itoa (hi.val * 256 + lo.val))) := by
  unfold portStage
  rw [readFull_full st 2 [hi, lo] rest hbuf (by simp [hin]) rfl]
  simp

theorem addressStage_ipv4 (env : Env) (st : St) (resp : List Byte) (a b c d : Byte)
    (rest : List Byte) (hbuf : 4 ≤ st.buf.length) (hin : st.input = a :: b :: c :: d :: rest) :
    addressStage env st resp 1 =
      portStage env ⟨rest, [a, b, c, d] ++ st.buf.drop 4, st.trace ++ [.read 4 [a, b, c, d]],
        st.nwrites⟩ resp (ipString [a, b, c, d]) := by
  unfold addressStage
  rw [readFull_full st 4 [a, b, c, d] rest hbuf (by simp [hin]) rfl]
  simp

theorem addressStage_domain (env : Env) (st : St) (resp : List Byte) (l : Byte)
    (payload rest : List Byte) (hbuf : 256 ≤ st.buf.length)
    (hin : st.input = l :: payload ++ rest) (hlen : payload.length = l.val) :
    addressStage env st resp 3 =
      portStage env ⟨rest, payload ++ ([l] ++ st.buf.drop 1).drop l.val,
        st.trace ++ [.read 1 [l], .read l.val payload], st.nwrites⟩ resp payload := by
  have hl := l.isLt
  unfold addressStage
  rw [readFull_full st 1 [l] (payload ++ rest) (by omega) (by simp [hin]) rfl]
  simp only [show ¬ ((3 : Byte) = 1) by decide, if_false, if_true, List.singleton_append,
    List.getElem?_cons_zero]
  rw [readFull_full _ l.val payload rest (by simp; omega) rfl hlen]
  simp [← hlen]

theorem addressStage_ipv6 (env : Env) (st : St) (resp : List Byte) (ip rest : List Byte)
    (hbuf : 16 ≤ st.buf.length) (hin : st.input = ip ++ rest) (hlen : ip.length = 16) :
    addressStage env st resp 4 =
      portStage env ⟨rest, ip ++ st.buf.drop 16, st.trace ++ [.read 16 ip], st.nwrites⟩ resp
        (ipString ip) := by
  unfold addressStage
  rw [readFull_full st 16 ip rest hbuf hin hlen]
  simp [show ¬ ((4 : Byte) = 1) by decide, show ¬ ((4 : Byte) = 3) by decide, ← hlen]

theorem addressStage_other (env : Env) (st : St) (atyp : Byte)
    (h1 : atyp ≠ 1) (h3 : atyp ≠ 3) (h4 : atyp ≠ 4) :
    addressStage env st respInit atyp =
      (let w := env.writeResult st.nwrites [5, 7, 0, 1, 0, 0, 0, 0, 0, 0]
       ⟨st.trace ++ [.write [5, 7, 0, 1, 0, 0, 0, 0, 0, 0] w.1 w.2],
         .error .invalidRequest⟩) := by
  simp [addressStage, h1, h3, h4, connWrite, respInit_eq]

/-! ## The shape of every run -/

theorem callbacks_eq (env : Env) (resp : List Byte) (k : Nat) (st : St) :
    callbacks env resp k st
      = ⟨st.input, st.buf, st.trace ++ cbEvents env resp st.nwrites k, st.nwrites + k⟩ := by
  induction k generalizing st with
  | zero => simp [callbacks, cbEvents]
  | succ k ih =>
    simp only [callbacks, ih, onConnected, cbEvents, List.append_assoc, List.singleton_append]
    simp [Nat.add_assoc, Nat.add_comm 1 k]

theorem forwardStage_eq (env : Env) (st : St) (address : List Byte) :
    forwardStage env st respInit address
      = forwardRun env st.trace address st.input st.nwrites := by
  simp only [forwardStage, forwardRun, callbacks_eq, connWrite, respInit_eq]
  split <;> simp

theorem readFull_short_trace {st st' : St} {k : Nat} (h : readFull st k = .short st') :
    st'.trace = st.trace ++ [.read k st.input] ∧ st'.nwrites = st.nwrites := by
  unfold readFull at h
  split at h
  · split at h
    · cases h
    · cases h; exact ⟨rfl, rfl⟩
  · cases h

theorem readFull_full_trace {st st' : St} {k : Nat} (h : readFull st k = .full st') :
    st'.trace = st.trace ++ [.read k (st.input.take k)] ∧ st'.nwrites = st.nwrites
      ∧ st'.input = st.input.drop k ∧ st'.buf.length = st.buf.length := by
  unfold readFull at h
  split at h
  · split at h
    · cases h
      refine ⟨rfl, rfl, rfl, ?_⟩
      simp only [List.length_append, List.length_take, List.length_drop]
      omega
    · cases h
  · cases h

theorem readsOnly_nil : readsOnly [] := by
  intro e he; cases he

theorem readsOnly_cons (k : Nat) (got : List Byte) {l : List Event} (h : readsOnly l) :
    readsOnly (.read k got :: l) := by
  intro e he
  rcases List.mem_cons.mp he with rfl | he
  · exact ⟨k, got, rfl⟩
  · exact h e he

theorem ReqSuffix.nil (env : Env) : ReqSuffix env [] :=
  ⟨[], readsOnly_nil, Or.inl rfl⟩

theorem ReqSuffix.read (env : Env) (k : Nat) (got : List Byte) {tail : List Event}
    (h : ReqSuffix env tail) : ReqSuffix env (.read k got :: tail) := by
  obtain ⟨rd, hrd, h⟩ := h
  refine ⟨.read k got :: rd, readsOnly_cons k got hrd, ?_⟩
  rcases h with h | ⟨n, f, h⟩ | ⟨addr, unread, nw, n, f, h⟩
  · exact Or.inl (by rw [h])
  · exact Or.inr (Or.inl ⟨n, f, by rw [h]; rfl⟩)
  · exact Or.inr (Or.inr ⟨addr, unread, nw, n, f, by rw [h]; rfl⟩)

theorem forwardStage_suffix (env : Env) (st : St) (address : List Byte) :
    ∃ tail, (forwardStage env st respInit address).trace = st.trace ++ tail
      ∧ ReqSuffix env tail := by
  rw [forwardStage_eq, forwardRun]
  refine ⟨_, ?_, [], readsOnly_nil, Or.inr (Or.inr ⟨address, st.input, st.nwrites,
    (env.writeResult (st.nwrites + (env.forwarder (str "tcp") address st.input).1)
      [5, 4, 0, 1, 0, 0, 0, 0, 0, 0]).1,
    (env.writeResult (st.nwrites + (env.forwarder (str "tcp") address st.input).1)
      [5, 4, 0, 1, 0, 0, 0, 0, 0, 0]).2, rfl⟩)⟩
  by_cases hb : (env.forwarder (str "tcp") address st.input).2 = true <;> simp [hb]

theorem suffix_of_reads (env : Env) {st : St} {tr : List Event} {k : Nat} {got : List Byte}
    (h : tr = st.trace ++ [.read k got]) :
    ∃ tail, tr = st.trace ++ tail ∧ ReqSuffix env tail :=
  ⟨_, h, ReqSuffix.read env k got (ReqSuffix.nil env)⟩

theorem suffix_after_read (env : Env) {st st' : St} {k : Nat} {got : List Byte} {r : Run}
    (h : st'.trace = st.trace ++ [.read k got])
    (hr : ∃ tail, r.trace = st'.trace ++ tail ∧ ReqSuffix env tail) :
    ∃ tail, r.trace = st.trace ++ tail ∧ ReqSuffix env tail := by
  obtain ⟨tail, ht, hs⟩ := hr
  exact ⟨.read k got :: tail, by rw [ht, h]; simp, ReqSuffix.read env k got hs⟩

theorem reject_suffix (env : Env) (st : St) :
    ∃ tail, (connWrite env st (respInit.set 1 7)).2.trace = st.trace ++ tail
      ∧ ReqSuffix env tail :=
  ⟨[.write [5, 7, 0, 1, 0, 0, 0, 0, 0, 0]
      (env.writeResult st.nwrites [5, 7, 0, 1, 0, 0, 0, 0, 0, 0]).1
      (env.writeResult st.nwrites [5, 7, 0, 1, 0, 0, 0, 0, 0, 0]).2],
    by simp [connWrite, respInit_eq],
    [], readsOnly_nil, Or.inr (Or.inl ⟨_, _, rfl⟩)⟩

theorem portStage_suffix (env : Env) (st : St) (host : List Byte) :
    ∃ tail, (portStage env st respInit host).trace = st.trace ++ tail
      ∧ ReqSuffix env tail := by
  unfold portStage
  cases h : readFull st 2 with
  | outOfRange => exact ⟨[], by simp, ReqSuffix.nil env⟩
  | short st' => exact suffix_of_reads env (readFull_short_trace h).1
  | full st' =>
    have ht := (readFull_full_trace h).1
    simp only
    split
    · exact suffix_after_read env ht (forwardStage_suffix env st' _)
    · exact suffix_of_reads env ht

theorem addressStage_suffix (env : Env) (st : St) (atyp : Byte) :
    ∃ tail, (addressStage env st respInit atyp).trace = st.trace ++ tail
      ∧ ReqSuffix env tail := by
  unfold addressStage
  split
  · cases h : readFull st 4 with
    | outOfRange => exact ⟨[], by simp, ReqSuffix.nil env⟩
    | short st' => exact suffix_of_reads env (readFull_short_trace h).1
    | full st' => exact suffix_after_read env (readFull_full_trace h).1 (portStage_suffix env st' _)
  · split
    · cases h : readFull st 1 with
      | outOfRange => exact ⟨[], by simp, ReqSuffix.nil env⟩
      | short st' => exact suffix_of_reads env (readFull_short_trace h).1
      | full st' =>
        have ht := (readFull_full_trace h).1
        simp only
        split
        · exact suffix_of_reads env ht
        · rename_i b0 _
          cases h2 : readFull st' b0.val with
          | outOfRange => exact suffix_of_reads env ht
          | short st2 =>
            exact suffix_after_read env ht (suffix_of_reads env (readFull_short_trace h2).1)
          | full st2 =>
            exact suffix_after_read env ht
              (suffix_after_read env (readFull_full_trace h2).1 (portStage_suffix env st2 _))
    · split
      · cases h : readFull st 16 with
        | outOfRange => exact ⟨[], by simp, ReqSuffix.nil env⟩
        | short st' => exact suffix_of_reads env (readFull_short_trace h).1
        | full st' =>
          exact suffix_after_read env (readFull_full_trace h).1 (portStage_suffix env st' _)
      · exact reject_suffix env st

theorem requestStage_suffix (env : Env) (st : St) :
    ∃ tail, (requestStage env st).trace = st.trace ++ tail ∧ ReqSuffix env tail := by
  unfold requestStage
  cases h : readFull st 4 with
  | outOfRange => exact ⟨[], by simp, ReqSuffix.nil env⟩
  | short st' => exact suffix_of_reads env (readFull_short_trace h).1
  | full st' =>
    have ht := (readFull_full_trace h).1
    simp only
    split
    · split
      · exact suffix_after_read env ht (reject_suffix env st')
      · exact suffix_after_read env ht (addressStage_suffix env st' _)
    · exact suffix_of_reads env ht

theorem authLoop_range (buf : List Byte) (left i : Nat) (a b : Byte)
    (h : authLoop buf left i a = some b) : b = 0 ∨ b = a := by
  induction left generalizing i a with
  | zero => simp [authLoop] at h; exact Or.inr h.symm
  | succ left ih =>
    unfold authLoop at h
    split at h
    · cases h
    · rename_i x _
      rcases ih _ _ h with h0 | h1
      · exact Or.inl h0
      · by_cases hx : x = 0
        · simp [hx] at h1; exact Or.inl h1
        · simp [hx] at h1; exact Or.inr h1

theorem methodStage_shape (env : Env) (st : St) (cntAuth : Nat) :
    (methodStage env st cntAuth).trace = st.trace ∨
      ∃ s n f tail, (s = 0 ∨ s = 0xff) ∧
        (methodStage env st cntAuth).trace = st.trace ++ .write [5, s] n f :: tail
          ∧ ReqSuffix env tail := by
  unfold methodStage
  split
  · exact Or.inl rfl
  · rename_i auth hauth
    split
    · rename_i hlen
      refine Or.inr ⟨auth, (env.writeResult st.nwrites [5, auth]).1,
        (env.writeResult st.nwrites [5, auth]).2, ?_⟩
      simp only [connWrite, take_two_set _ _ _ hlen]
      split
      · exact ⟨[], authLoop_range _ _ _ _ _ hauth, by simp, ReqSuffix.nil env⟩
      · split
        · exact ⟨[], authLoop_range _ _ _ _ _ hauth, by simp, ReqSuffix.nil env⟩
        · obtain ⟨tail, ht, hs⟩ := requestStage_suffix env
            ⟨st.input, (st.buf.set 0 5).set 1 auth,
              st.trace ++ [.write [5, auth] (env.writeResult st.nwrites [5, auth]).1
                (env.writeResult st.nwrites [5, auth]).2], st.nwrites + 1⟩
          exact ⟨tail, authLoop_range _ _ _ _ _ hauth, by rw [ht]; simp, hs⟩
    · exact Or.inl rfl

/-- Every run of `handleConn` is a sequence of reads, optionally followed by the
2-byte method reply `[5, s]` with `s` either `0x00` or `0xff` and a request-stage
suffix. -/
theorem handleConn_shape (env : Env) (input : List Byte) :
    ∃ rd, readsOnly rd ∧
      ((handleConn env input).trace = rd ∨
        ∃ s n f tail, (s = 0 ∨ s = 0xff) ∧
          (handleConn env input).trace = rd ++ .write [5, s] n f :: tail
            ∧ ReqSuffix env tail) := by
  unfold handleConn
  cases h : readFull (initSt input) 2 with
  | outOfRange => exact ⟨[], readsOnly_nil, Or.inl rfl⟩
  | short st' =>
    have ht := (readFull_short_trace h).1
    exact ⟨_, readsOnly_cons 2 input readsOnly_nil, Or.inl (by simpa [initSt] using ht)⟩
  | full st' =>
    have ht : st'.trace = [.read 2 (input.take 2)] := by
      simpa [initSt] using (readFull_full_trace h).1
    have hr1 : readsOnly st'.trace := by
      rw [ht]; exact readsOnly_cons 2 _ readsOnly_nil
    simp only
    split
    · rename_i b0 b1 _ _
      split
      · exact ⟨_, hr1, Or.inl rfl⟩
      · cases h2 : readFull st' b1.val with
        | outOfRange => exact ⟨_, hr1, Or.inl rfl⟩
        | short st2 =>
          refine ⟨st2.trace, ?_, Or.inl rfl⟩
          rw [(readFull_short_trace h2).1, ht]
          exact readsOnly_cons 2 _ (readsOnly_cons _ _ readsOnly_nil)
        | full st2 =>
          have hr2 : readsOnly st2.trace := by
            rw [(readFull_full_trace h2).1, ht]
            exact readsOnly_cons 2 _ (readsOnly_cons _ _ readsOnly_nil)
          rcases methodStage_shape env st2 b1.val with hm | ⟨s, n, f, tail, hs, hm, hsuf⟩
          · exact ⟨_, hr2, Or.inl hm⟩
          · exact ⟨_, hr2, Or.inr ⟨s, n, f, tail, hs, hm, hsuf⟩⟩
    · exact ⟨_, hr1, Or.inl rfl⟩

/-! ## Observations are additive -/

theorem written_append (l₁ l₂ : List Event) : written (l₁ ++ l₂) = written l₁ ++ written l₂ := by
  induction l₁ with
  | nil => rfl
  | cons e l ih => cases e <;> simp [written, ih]

theorem reads_append (l₁ l₂ : List Event) : reads (l₁ ++ l₂) = reads l₁ ++ reads l₂ := by
  induction l₁ with
  | nil => rfl
  | cons e l ih => cases e <;> simp [reads, ih]

theorem forwardCalls_append (l₁ l₂ : List Event) :
    forwardCalls (l₁ ++ l₂) = forwardCalls l₁ ++ forwardCalls l₂ := by
  induction l₁ with
  | nil => rfl
  | cons e l ih => cases e <;> simp [forwardCalls, ih]

theorem errorReplies_append (l₁ l₂ : List Event) :
    errorReplies (l₁ ++ l₂) = errorReplies l₁ ++ errorReplies l₂ := by
  induction l₁ with
  | nil => rfl
  | cons e l ih =>
    cases e <;> simp [errorReplies, ih]
    split <;> simp

theorem callbackReplies_append (l₁ l₂ : List Event) :
    callbackReplies (l₁ ++ l₂) = callbackReplies l₁ ++ callbackReplies l₂ := by
  induction l₁ with
  | nil => rfl
  | cons e l ih => cases e <;> simp [callbackReplies, ih]

theorem replies_append (l₁ l₂ : List Event) : replies (l₁ ++ l₂) = replies l₁ ++ replies l₂ := by
  simp [replies, written_append]

/-! ## The greeting -/

theorem selected_of_mem {ms : List Byte} (h : (0 : Byte) ∈ ms) : selected ms = 0 := by
  simp [selected, h]

theorem selected_of_not_mem {ms : List Byte} (h : (0 : Byte) ∉ ms) : selected ms = 0xff := by
  simp [selected, h]

theorem handleConn_negotiated (env : Env) (n : Byte) (ms rest : List Byte)
    (hlen : ms.length = n.val) (h0 : (0 : Byte) ∈ ms)
    (hw : env.writeResult 0 [5, 0] = (2, false)) :
    handleConn env (5 :: n :: ms ++ rest) = requestStage env (negotiated n ms rest) := by
  rw [handleConn_hello env n ms rest hlen]
  simp [selected_of_mem h0, hw, negotiated, helloTrace]

theorem negotiated_buf_length (n : Byte) (ms rest : List Byte) (hlen : ms.length = n.val) :
    (negotiated n ms rest).buf.length = 1024 :=
  helloBuf_length n ms hlen

theorem requestStage_first_read (env : Env) (st : St) (hbuf : 4 ≤ st.buf.length) :
    ∃ tail, (requestStage env st).trace = st.trace ++ .read 4 (st.input.take 4) :: tail := by
  by_cases hin : st.input.length < 4
  · rw [requestStage_short env st hbuf hin]
    exact ⟨[], by simp [List.take_of_length_le (Nat.le_of_lt hin)]⟩
  · unfold requestStage
    cases h : readFull st 4 with
    | outOfRange => simp [readFull, hbuf, Nat.le_of_not_lt hin] at h
    | short st' => simp [readFull, hbuf, Nat.le_of_not_lt hin] at h
    | full st' =>
      have ht1 := (readFull_full_trace h).1
      simp only
      split
      · split
        · obtain ⟨tail, ht, -⟩ := reject_suffix env st'
          exact ⟨tail, by rw [ht, ht1]; simp⟩
        · obtain ⟨tail, ht, -⟩ := addressStage_suffix env st' _
          exact ⟨tail, by rw [ht, ht1]; simp⟩
      · exact ⟨[], by rw [ht1]⟩

theorem handleConn_hello_failed (env : Env) (n : Byte) (ms rest : List Byte)
    (hlen : ms.length = n.val) (h0 : (0 : Byte) ∈ ms)
    (hw : env.writeResult 0 [5, 0] ≠ (2, false)) :
    handleConn env (5 :: n :: ms ++ rest) =
      ⟨[.read 2 [5, n], .read n.val ms,
        .write [5, 0] (env.writeResult 0 [5, 0]).1 (env.writeResult 0 [5, 0]).2],
        .error .shortHello⟩ := by
  rw [handleConn_hello env n ms rest hlen]
  simp only [selected_of_mem h0]
  have hw' : (env.writeResult 0 [5, 0]).1 ≠ 2 ∨ (env.writeResult 0 [5, 0]).2 = true := by
    by_contra hc
    push_neg at hc
    apply hw
    rcases hr : env.writeResult 0 [5, 0] with ⟨a, b⟩
    rw [hr] at hc
    simp at hc
    simp [hc.1, hc.2]
  simp [hw']

/-- C1 fails as stated: the greeting `[5, 1, 0]` offers method 0 and a complete
request follows it, but the write of the reply `[5, 0]` fails; `handleConn` returns
an error right after that write, and its last read is the read of the method
list, so the handshake does not go on to the request stage. -/
theorem failed_method_reply_stops_handshake :
    handleConn (envWritesFail fwdConnects) [5, 1, 0, 5, 1, 0, 1, 10, 0, 0, 1, 0, 80]
      = ⟨[.read 2 [5, 1], .read 1 [0], .write [5, 0] 0 true], .error .shortHello⟩
    ∧ reads (handleConn (envWritesFail fwdConnects)
        [5, 1, 0, 5, 1, 0, 1, 10, 0, 0, 1, 0, 80]).trace
      = [(2, [5, 1]), (1, [0])] := by
  decide

/-- C1, amended: for every greeting `[5, N, m_1..m_N]` with some method byte equal
to 0, whatever follows it, the first bytes `handleConn` writes are exactly
`[5, 0]`; when that write is complete (2 bytes, no error) the handshake goes on
with the request stage: the run is the request stage's run from the state after
the greeting, whose next action is the read of the 4-byte request header; and
when it is not, `handleConn` returns an error without reading the request. -/
theorem greeting_with_method_zero (env : Env) (n : Byte) (ms rest : List Byte)
    (hlen : ms.length = n.val) (h0 : (0 : Byte) ∈ ms) :
    (written (handleConn env (5 :: n :: ms ++ rest)).trace).head? = some [5, 0] ∧
    (env.writeResult 0 [5, 0] = (2, false) →
      handleConn env (5 :: n :: ms ++ rest) = requestStage env (negotiated n ms rest) ∧
      ∃ tail, (handleConn env (5 :: n :: ms ++ rest)).trace
        = helloTrace n ms ++ .read 4 (rest.take 4) :: tail) ∧
    (env.writeResult 0 [5, 0] ≠ (2, false) →
      handleConn env (5 :: n :: ms ++ rest)
        = ⟨[.read 2 [5, n], .read n.val ms,
            .write [5, 0] (env.writeResult 0 [5, 0]).1 (env.writeResult 0 [5, 0]).2],
          .error .shortHello⟩ ∧
      reads (handleConn env (5 :: n :: ms ++ rest)).trace = [(2, [5, n]), (n.val, ms)]) := by
  have hcont : env.writeResult 0 [5, 0] = (2, false) →
      handleConn env (5 :: n :: ms ++ rest) = requestStage env (negotiated n ms rest) ∧
      ∃ tail, (handleConn env (5 :: n :: ms ++ rest)).trace
        = helloTrace n ms ++ .read 4 (rest.take 4) :: tail := by
    intro hw
    refine ⟨handleConn_negotiated env n ms rest hlen h0 hw, ?_⟩
    rw [handleConn_negotiated env n ms rest hlen h0 hw]
    exact requestStage_first_read env (negotiated n ms rest)
      (by rw [negotiated_buf_length n ms rest hlen]; decide)
  have hstop : env.writeResult 0 [5, 0] ≠ (2, false) →
      handleConn env (5 :: n :: ms ++ rest)
        = ⟨[.read 2 [5, n], .read n.val ms,
            .write [5, 0] (env.writeResult 0 [5, 0]).1 (env.writeResult 0 [5, 0]).2],
          .error .shortHello⟩ ∧
      reads (handleConn env (5 :: n :: ms ++ rest)).trace = [(2, [5, n]), (n.val, ms)] := by
    intro hw
    rw [handleConn_hello_failed env n ms rest hlen h0 hw]
    exact ⟨rfl, rfl⟩
  refine ⟨?_, hcont, hstop⟩
  by_cases hw : env.writeResult 0 [5, 0] = (2, false)
  · obtain ⟨tail, ht⟩ := (hcont hw).2
    rw [ht]
    simp [helloTrace, written]
  · rw [(hstop hw).1]
    rfl

/-- Instance of C1 as amended: the greeting `[5, 2, 1, 0]` followed by a request,
with the reply written in full. -/
theorem greeting_with_method_zero_witness :
    (written (handleConn (envOk fwdSilent) (5 :: 2 :: [1, 0] ++ [5, 1, 0, 1])).trace).head?
        = some [5, 0] ∧
      handleConn (envOk fwdSilent) (5 :: 2 :: [1, 0] ++ [5, 1, 0, 1])
        = requestStage (envOk fwdSilent) (negotiated 2 [1, 0] [5, 1, 0, 1]) ∧
      ∃ tail, (handleConn (envOk fwdSilent) (5 :: 2 :: [1, 0] ++ [5, 1, 0, 1])).trace
        = helloTrace 2 [1, 0] ++ .read 4 (List.take 4 [5, 1, 0, 1]) :: tail :=
  ⟨(greeting_with_method_zero (envOk fwdSilent) 2 [1, 0] [5, 1, 0, 1] rfl (by decide)).1,
    (greeting_with_method_zero (envOk fwdSilent) 2 [1, 0] [5, 1, 0, 1] rfl (by decide)).2.1
      rfl⟩

/-- C2: for every greeting `[5, N, m_1..m_N]` none of whose method bytes is 0
(`N = 0` included), whatever follows it and whatever the write returns, the only
bytes `handleConn` writes are `[5, 0xff]`, it returns an error, its last read is
the read of the method list, and it does not call the forwarder. -/
theorem greeting_without_method_zero (env : Env) (n : Byte) (ms rest : List Byte)
    (hlen : ms.length = n.val) (h0 : (0 : Byte) ∉ ms) :
    written (handleConn env (5 :: n :: ms ++ rest)).trace = [[5, 0xff]] ∧
    (∃ e, (handleConn env (5 :: n :: ms ++ rest)).result = .error e) ∧
    reads (handleConn env (5 :: n :: ms ++ rest)).trace = [(2, [5, n]), (n.val, ms)] ∧
    forwardCalls (handleConn env (5 :: n :: ms ++ rest)).trace = [] := by
  rw [handleConn_hello env n ms rest hlen]
  simp only [selected_of_not_mem h0]
  by_cases hw : (env.writeResult 0 [5, 0xff]).1 ≠ 2 ∨ (env.writeResult 0 [5, 0xff]).2 = true
  · simp [hw, written, reads, forwardCalls]
  · simp [hw, written, reads, forwardCalls]

/-- Instance of C2: the empty method list, `N = 0`, followed by further bytes. -/
theorem greeting_without_method_zero_witness :
    written (handleConn (envOk fwdConnects) (5 :: 0 :: [] ++ [5, 1, 0, 1])).trace
        = [[5, 0xff]] ∧
    (∃ e, (handleConn (envOk fwdConnects) (5 :: 0 :: [] ++ [5, 1, 0, 1])).result = .error e) ∧
    reads (handleConn (envOk fwdConnects) (5 :: 0 :: [] ++ [5, 1, 0, 1])).trace
        = [(2, [5, 0]), ((0 : Byte).val, [])] ∧
    forwardCalls (handleConn (envOk fwdConnects) (5 :: 0 :: [] ++ [5, 1, 0, 1])).trace = [] :=
  greeting_without_method_zero (envOk fwdConnects) 0 [] [5, 1, 0, 1] rfl (by decide)

/-- C3: for every input of at least two bytes whose first byte is not 5, whatever
the second byte and the rest are, `handleConn` returns an error after the first
read and writes nothing. -/
theorem wrong_version_no_reply (env : Env) (b0 b1 : Byte) (rest : List Byte) (h : b0 ≠ 5) :
    handleConn env (b0 :: b1 :: rest) = ⟨[.read 2 [b0, b1]], .error .wrongFirstByte⟩ ∧
    written (handleConn env (b0 :: b1 :: rest)).trace = [] := by
  have hr : handleConn env (b0 :: b1 :: rest) = ⟨[.read 2 [b0, b1]], .error .wrongFirstByte⟩ := by
    unfold handleConn
    rw [readFull_full (initSt (b0 :: b1 :: rest)) 2 [b0, b1] rest
      (by simp [initSt, length_make]) (by simp [initSt]) rfl]
    simp [initSt, h]
  exact ⟨hr, by rw [hr]; rfl⟩

/-- Instance of C3: a SOCKS4 greeting. -/
theorem wrong_version_no_reply_witness :
    handleConn (envOk fwdConnects) (4 :: 1 :: [0, 80, 1, 2, 3, 4, 0])
        = ⟨[.read 2 [4, 1]], .error .wrongFirstByte⟩ ∧
    written (handleConn (envOk fwdConnects) (4 :: 1 :: [0, 80, 1, 2, 3, 4, 0])).trace = [] :=
  wrong_version_no_reply (envOk fwdConnects) 4 1 [0, 80, 1, 2, 3, 4, 0] (by decide)

/-- C4: after a successful method negotiation, for every request header
`[v, cmd, rsv, atyp]` with `v ≠ 5` or `cmd ≠ 1` or `rsv ≠ 0`, whatever `atyp` and
the following bytes are, `handleConn` writes `[5,7,0,1,0,0,0,0,0,0]` as its only
10-byte reply, returns an error, reads nothing after the header, and does not call
the forwarder. -/
theorem bad_request_header_rejected (env : Env) (n : Byte) (ms : List Byte)
    (v cmd rsv atyp : Byte) (rest : List Byte)
    (hlen : ms.length = n.val) (h0 : (0 : Byte) ∈ ms)
    (hw : env.writeResult 0 [5, 0] = (2, false))
    (hbad : v ≠ 5 ∨ cmd ≠ 1 ∨ rsv ≠ 0) :
    written (handleConn env (5 :: n :: ms ++ v :: cmd :: rsv :: atyp :: rest)).trace
        = [[5, 0], [5, 7, 0, 1, 0, 0, 0, 0, 0, 0]] ∧
    replies (handleConn env (5 :: n :: ms ++ v :: cmd :: rsv :: atyp :: rest)).trace
        = [[5, 7, 0, 1, 0, 0, 0, 0, 0, 0]] ∧
    (handleConn env (5 :: n :: ms ++ v :: cmd :: rsv :: atyp :: rest)).result
        = .error .invalidRequest ∧
    reads (handleConn env (5 :: n :: ms ++ v :: cmd :: rsv :: atyp :: rest)).trace
        = [(2, [5, n]), (n.val, ms), (4, [v, cmd, rsv, atyp])] ∧
    forwardCalls (handleConn env (5 :: n :: ms ++ v :: cmd :: rsv :: atyp :: rest)).trace
        = [] := by
  rw [handleConn_negotiated env n ms _ hlen h0 hw,
    requestStage_header env _ v cmd rsv atyp rest
      (by rw [negotiated_buf_length n ms _ hlen]; decide) rfl]
  simp [hbad, negotiated, helloTrace, written, replies, reads, forwardCalls]

/-- Instance of C4: the BIND command (`cmd = 2`) after the greeting `[5, 1, 0]`. -/
theorem bad_request_header_rejected_witness :
    written (handleConn (envOk fwdConnects)
        (5 :: 1 :: [0] ++ 5 :: 2 :: 0 :: 1 :: [1, 2, 3, 4, 0, 80])).trace
        = [[5, 0], [5, 7, 0, 1, 0, 0, 0, 0, 0, 0]] ∧
    replies (handleConn (envOk fwdConnects)
        (5 :: 1 :: [0] ++ 5 :: 2 :: 0 :: 1 :: [1, 2, 3, 4, 0, 80])).trace
        = [[5, 7, 0, 1, 0, 0, 0, 0, 0, 0]] ∧
    (handleConn (envOk fwdConnects)
        (5 :: 1 :: [0] ++ 5 :: 2 :: 0 :: 1 :: [1, 2, 3, 4, 0, 80])).result
        = .error .invalidRequest ∧
    reads (handleConn (envOk fwdConnects)
        (5 :: 1 :: [0] ++ 5 :: 2 :: 0 :: 1 :: [1, 2, 3, 4, 0, 80])).trace
        = [(2, [5, 1]), ((1 : Byte).val, [0]), (4, [5, 2, 0, 1])] ∧
    forwardCalls (handleConn (envOk fwdConnects)
        (5 :: 1 :: [0] ++ 5 :: 2 :: 0 :: 1 :: [1, 2, 3, 4, 0, 80])).trace = [] :=
  bad_request_header_rejected (envOk fwdConnects) 1 [0] 5 2 0 1 [1, 2, 3, 4, 0, 80]
    rfl (by decide) rfl (by decide)

/-- C5: after a successful method negotiation, for every request header
`[5, 1, 0, atyp]` with `atyp` not in `{1, 3, 4}`, `handleConn` writes
`[5,7,0,1,0,0,0,0,0,0]`, returns an error, reads nothing after the header, and
does not call the forwarder. -/
theorem unsupported_address_type_rejected (env : Env) (n : Byte) (ms : List Byte)
    (atyp : Byte) (rest : List Byte)
    (hlen : ms.length = n.val) (h0 : (0 : Byte) ∈ ms)
    (hw : env.writeResult 0 [5, 0] = (2, false))
    (h1 : atyp ≠ 1) (h3 : atyp ≠ 3) (h4 : atyp ≠ 4) :
    written (handleConn env (5 :: n :: ms ++ 5 :: 1 :: 0 :: atyp :: rest)).trace
        = [[5, 0], [5, 7, 0, 1, 0, 0, 0, 0, 0, 0]] ∧
    (handleConn env (5 :: n :: ms ++ 5 :: 1 :: 0 :: atyp :: rest)).result
        = .error .invalidRequest ∧
    reads (handleConn env (5 :: n :: ms ++ 5 :: 1 :: 0 :: atyp :: rest)).trace
        = [(2, [5, n]), (n.val, ms), (4, [5, 1, 0, atyp])] ∧
    forwardCalls (handleConn env (5 :: n :: ms ++ 5 :: 1 :: 0 :: atyp :: rest)).trace
        = [] := by
  rw [handleConn_negotiated env n ms _ hlen h0 hw,
    requestStage_header env _ 5 1 0 atyp rest
      (by rw [negotiated_buf_length n ms _ hlen]; decide) rfl]
  simp only [ne_eq, not_true_eq_false, or_self, if_false]
  rw [addressStage_other env _ atyp h1 h3 h4]
  simp [negotiated, helloTrace, written, reads, forwardCalls]

/-- Instance of C5: address type 2 after the greeting `[5, 1, 0]`. -/
theorem unsupported_address_type_rejected_witness :
    written (handleConn (envOk fwdConnects)
        (5 :: 1 :: [0] ++ 5 :: 1 :: 0 :: 2 :: [1, 2, 3, 4, 0, 80])).trace
        = [[5, 0], [5, 7, 0, 1, 0, 0, 0, 0, 0, 0]] ∧
    (handleConn (envOk fwdConnects)
        (5 :: 1 :: [0] ++ 5 :: 1 :: 0 :: 2 :: [1, 2, 3, 4, 0, 80])).result
        = .error .invalidRequest ∧
    reads (handleConn (envOk fwdConnects)
        (5 :: 1 :: [0] ++ 5 :: 1 :: 0 :: 2 :: [1, 2, 3, 4, 0, 80])).trace
        = [(2, [5, 1]), ((1 : Byte).val, [0]), (4, [5, 1, 0, 2])] ∧
    forwardCalls (handleConn (envOk fwdConnects)
        (5 :: 1 :: [0] ++ 5 :: 1 :: 0 :: 2 :: [1, 2, 3, 4, 0, 80])).trace = [] :=
  unsupported_address_type_rejected (envOk fwdConnects) 1 [0] 2 [1, 2, 3, 4, 0, 80]
    rfl (by decide) rfl (by decide) (by decide) (by decide)

/-! ## Sessions with a valid request -/

/-- A session with a valid greeting and a valid request reaches the forwarder call
with the rendered address, having read exactly the greeting and the request. -/
theorem handleConn_valid (env : Env) (n : Byte) (ms : List Byte) (atyp : Byte)
    (addr : List Byte) (hi lo : Byte) (rest : List Byte)
    (hlen : ms.length = n.val) (h0 : (0 : Byte) ∈ ms)
    (hw : env.writeResult 0 [5, 0] = (2, false)) (hv : ValidAddr atyp addr) :
    handleConn env (validInput n ms atyp addr hi lo rest)
      = forwardRun env (requestTrace n ms atyp addr hi lo) (target atyp addr hi lo) rest 1 := by
  have hb : ∀ r, (negotiated n ms r).buf.length = 1024 :=
    fun r => negotiated_buf_length n ms r hlen
  unfold validInput
  rw [handleConn_negotiated env n ms _ hlen h0 hw,
    requestStage_header env _ 5 1 0 atyp (addr ++ hi :: lo :: rest) (by rw [hb]; decide) rfl]
  simp only [ne_eq, not_true_eq_false, or_self, if_false]
  rcases hv with ⟨rfl, ha⟩ | ⟨rfl, l, payload, rfl, hp⟩ | ⟨rfl, ha⟩
  · match addr, ha with
    | [a, b, c, d], _ =>
      rw [addressStage_ipv4 env _ respInit a b c d (hi :: lo :: rest)
        (by simp [hb]) rfl]
      rw [portStage_eq env _ respInit _ hi lo rest (by simp [hb]) rfl, forwardStage_eq]
      simp [requestTrace, addrReads, target, hostText, negotiated]
  · have hl := l.isLt
    rw [addressStage_domain env _ respInit l payload (hi :: lo :: rest)
      (by simp [hb]) (by simp) hp]
    rw [portStage_eq env _ respInit _ hi lo rest (by simp [hb]; omega) rfl, forwardStage_eq]
    simp [requestTrace, addrReads, target, hostText, negotiated, hp]
  · rw [addressStage_ipv6 env _ respInit addr (hi :: lo :: rest) (by simp [hb]) rfl ha]
    rw [portStage_eq env _ respInit _ hi lo rest (by simp [hb, ha]) rfl, forwardStage_eq]
    simp [requestTrace, addrReads, target, hostText, negotiated, ha,
      show ¬ ((4 : Byte) = 3) by decide]

/-! ## Rendering of numbers and addresses -/

theorem itoa_eq_decimal (n : Nat) : itoa n = decimal n := rfl

theorem ubtoa_eq_decimal : ∀ v : Byte, ubtoa v = decimal v.val := by
  decide

theorem colon_not_mem_ubtoa : ∀ v : Byte, (58 : Byte) ∉ ubtoa v := by
  decide

theorem colon_not_mem_ip4String (p4 : List Byte) : (58 : Byte) ∉ ip4String p4 := by
  simp only [ip4String, List.mem_append, List.mem_singleton, not_or]
  exact ⟨⟨⟨⟨⟨⟨colon_not_mem_ubtoa _, by decide⟩, colon_not_mem_ubtoa _⟩, by decide⟩,
    colon_not_mem_ubtoa _⟩, by decide⟩, colon_not_mem_ubtoa _⟩

theorem ipString_four (a b c d : Byte) :
    ipString [a, b, c, d] = decimal a.val ++ str "." ++ decimal b.val ++ str "."
      ++ decimal c.val ++ str "." ++ decimal d.val := by
  simp only [ipString, to4, ip4String, ← ubtoa_eq_decimal]
  simp
  rfl

/-! ## Observations on the forwarding step -/

theorem forwardCalls_cbEvents (env : Env) (resp : List Byte) (nw k : Nat) :
    forwardCalls (cbEvents env resp nw k) = [] := by
  induction k generalizing nw with
  | zero => rfl
  | succ k ih => simp [cbEvents, forwardCalls, ih]

theorem written_cbEvents (env : Env) (resp : List Byte) (nw k : Nat) :
    written (cbEvents env resp nw k) = List.replicate k resp := by
  induction k generalizing nw with
  | zero => rfl
  | succ k ih => simp [cbEvents, written, ih, List.replicate_succ]

theorem callbackReplies_cbEvents (env : Env) (resp : List Byte) (nw k : Nat) :
    callbackReplies (cbEvents env resp nw k) = List.replicate k resp := by
  induction k generalizing nw with
  | zero => rfl
  | succ k ih => simp [cbEvents, callbackReplies, ih, List.replicate_succ]

theorem errorReplies_cbEvents (env : Env) (resp : List Byte) (nw k : Nat) :
    errorReplies (cbEvents env resp nw k) = [] := by
  induction k generalizing nw with
  | zero => rfl
  | succ k ih => simp [cbEvents, errorReplies, ih]

theorem forwardCalls_requestTrace (n : Byte) (ms : List Byte) (atyp : Byte)
    (addr : List Byte) (hi lo : Byte) : forwardCalls (requestTrace n ms atyp addr hi lo) = [] := by
  unfold requestTrace addrReads helloTrace
  split <;> simp [forwardCalls]

theorem written_requestTrace (n : Byte) (ms : List Byte) (atyp : Byte)
    (addr : List Byte) (hi lo : Byte) : written (requestTrace n ms atyp addr hi lo) = [[5, 0]] := by
  unfold requestTrace addrReads helloTrace
  split <;> simp [written]

theorem forwardCalls_forwardRun (env : Env) (tr : List Event) (address unread : List Byte)
    (nw : Nat) :
    forwardCalls (forwardRun env tr address unread nw).trace
      = forwardCalls tr ++ [(str "tcp", address, unread)] := by
  unfold forwardRun
  simp only
  split <;>
    simp [forwardCalls_append, forwardCalls, forwardCalls_cbEvents]

theorem written_forwardRun (env : Env) (tr : List Event) (address unread : List Byte)
    (nw : Nat) :
    written (forwardRun env tr address unread nw).trace
      = written tr
        ++ List.replicate (env.forwarder (str "tcp") address unread).1
            [5, 0, 0, 1, 0, 0, 0, 0, 0, 0]
        ++ (if (env.forwarder (str "tcp") address unread).2 = true
            then [[5, 4, 0, 1, 0, 0, 0, 0, 0, 0]] else []) := by
  unfold forwardRun
  simp only
  split <;> rename_i h <;>
    simp [written_append, written, written_cbEvents, h]

/-- The forwarder calls of a session with a valid greeting and a valid request:
none when the method reply could not be written, else exactly one, with network
`tcp`, the rendered address, and the bytes after the port left unread. -/
theorem forwardCalls_valid (env : Env) (n : Byte) (ms : List Byte) (atyp : Byte)
    (addr : List Byte) (hi lo : Byte) (rest : List Byte)
    (hlen : ms.length = n.val) (h0 : (0 : Byte) ∈ ms) (hv : ValidAddr atyp addr) :
    forwardCalls (handleConn env (validInput n ms atyp addr hi lo rest)).trace
      = if env.writeResult 0 [5, 0] = (2, false)
        then [(str "tcp", target atyp addr hi lo, rest)] else [] := by
  by_cases hw : env.writeResult 0 [5, 0] = (2, false)
  · rw [handleConn_valid env n ms atyp addr hi lo rest hlen h0 hw hv,
      forwardCalls_forwardRun, forwardCalls_requestTrace]
    simp [hw]
  · unfold validInput
    rw [handleConn_hello_failed env n ms _ hlen h0 hw]
    simp [hw, forwardCalls]

theorem mem_appendHex {x : Byte} {dst : List Byte} (i : Nat) (h : x ∈ dst) :
    x ∈ appendHex dst i := by
  unfold appendHex
  split <;> simp [h]

theorem mem_printGroups {x : Byte} (p : List Byte) (e0 e1 : Int) (fuel i : Nat)
    {b : List Byte} (h : x ∈ b) : x ∈ printGroups p e0 e1 fuel i b := by
  induction fuel generalizing i b with
  | zero => simpa [printGroups] using h
  | succ fuel ih =>
    unfold printGroups
    split
    · split
      · simp only
        split
        · simp [h]
        · exact ih _ (mem_appendHex _ (by simp [h]))
      · simp only
        exact ih _ (mem_appendHex _ (by split <;> simp [h]))
    · exact h

theorem colon_mem_ip6String (p : List Byte) : (58 : Byte) ∈ ip6String p := by
  unfold ip6String
  simp only
  generalize (if (findRun p 8 0 (-1) (-1)).2 - (findRun p 8 0 (-1) (-1)).1 ≤ 2
    then ((-1 : Int), (-1 : Int)) else findRun p 8 0 (-1) (-1)) = e
  unfold printGroups
  simp only [show (0 : Nat) < 16 by decide, if_true]
  split
  · split
    · simp
    · exact mem_printGroups _ _ _ _ _ (mem_appendHex _ (by simp))
  · simp only [show ¬ ((0 : Nat) > 0) by decide, if_false]
    unfold printGroups
    simp only [show (0 + 2 : Nat) < 16 by decide, if_true]
    split
    · split
      · simp
      · exact mem_printGroups _ _ _ _ _ (mem_appendHex _ (by simp))
    · exact mem_printGroups _ _ _ _ _ (mem_appendHex _ (by simp))

theorem ipString_sixteen (ip : List Byte) (hip : ip.length = 16) :
    ipString ip = if isV4Mapped ip = true then ip4String (ip.drop 12) else ip6String ip := by
  unfold ipString to4
  by_cases hm : isV4Mapped ip = true <;> simp [hip, hm]

theorem hexDigit_mem : ∀ d : Nat, d < 16 → hexDigit d ∈ str "0123456789abcdef" := by
  decide

theorem isIP6Char_appendHex {dst : List Byte} (i : Nat) (h : ∀ x ∈ dst, isIP6Char x) :
    ∀ x ∈ appendHex dst i, isIP6Char x := by
  intro x hx
  unfold appendHex at hx
  split at hx
  · rcases List.mem_append.mp hx with hx | hx
    · exact h x hx
    · rw [List.mem_singleton] at hx
      exact Or.inr (by rw [hx]; decide)
  · rcases List.mem_append.mp hx with hx | hx
    · exact h x hx
    · obtain ⟨j, -, hj⟩ := List.mem_filterMap.mp hx
      simp only at hj
      split at hj
      · cases hj
        exact Or.inr (hexDigit_mem _ (Nat.and_lt_two_pow _ (by decide : 15 < 2 ^ 4)))
      · cases hj

theorem isIP6Char_printGroups (p : List Byte) (e0 e1 : Int) (fuel i : Nat)
    {b : List Byte} (h : ∀ x ∈ b, isIP6Char x) :
    ∀ x ∈ printGroups p e0 e1 fuel i b, isIP6Char x := by
  induction fuel generalizing i b with
  | zero => simpa [printGroups] using h
  | succ fuel ih =>
    have hc : ∀ x ∈ b ++ [58, 58], isIP6Char x := by
      intro x hx
      rcases List.mem_append.mp hx with hx | hx
      · exact h x hx
      · simp at hx; exact Or.inl hx
    have hc1 : ∀ x ∈ (if i > 0 then b ++ [58] else b), isIP6Char x := by
      intro x hx
      split at hx
      · rcases List.mem_append.mp hx with hx | hx
        · exact h x hx
        · simp at hx; exact Or.inl hx
      · exact h x hx
    unfold printGroups
    split
    · split
      · simp only
        split
        · exact hc
        · exact ih _ (isIP6Char_appendHex _ hc)
      · exact ih _ (isIP6Char_appendHex _ hc1)
    · exact h

theorem isIP6Char_ip6String (p : List Byte) : ∀ x ∈ ip6String p, isIP6Char x := by
  unfold ip6String
  exact isIP6Char_printGroups _ _ _ _ _ (by simp)

/-! ## The address handed to the forwarder -/

/-- C6 fails as stated: the domain name `a:b` (length byte 3) with port bytes
`[1, 187]` reaches the forwarder as `[a:b]:443`, not as the payload followed by
`:443`. -/
theorem domain_with_colon_is_bracketed :
    forwardCalls (handleConn (envOk fwdConnects)
        [5, 1, 0, 5, 1, 0, 3, 3, 97, 58, 98, 1, 187]).trace
      = [(str "tcp", str "[a:b]:443", [])]
    ∧ str "[a:b]:443" ≠ [97, 58, 98] ++ str ":" ++ decimal (256 * 1 + 187) := by
  decide

/-- C6, amended: for every valid request with address type 3, every length byte
`l`, payload of `l` bytes and port bytes `[hi, lo]`, the address passed to the
forwarder is the payload, unchanged when it holds no colon and enclosed in square
brackets when it holds one, followed by `:` and the decimal numeral of
`256*hi + lo`; the forwarder is called once, unless the method reply could not be
written. -/
theorem domain_request_address (env : Env) (n : Byte) (ms : List Byte) (l : Byte)
    (payload : List Byte) (hi lo : Byte) (rest : List Byte)
    (hlen : ms.length = n.val) (h0 : (0 : Byte) ∈ ms) (hp : payload.length = l.val) :
    forwardCalls (handleConn env (validInput n ms 3 (l :: payload) hi lo rest)).trace
      = if env.writeResult 0 [5, 0] = (2, false) then
          [(str "tcp",
            (if (58 : Byte) ∈ payload then str "[" ++ payload ++ str "]" else payload)
              ++ str ":" ++ decimal (256 * hi.val + lo.val),
            rest)]
        else [] := by
  rw [forwardCalls_valid env n ms 3 (l :: payload) hi lo rest hlen h0
    (Or.inr (Or.inl ⟨rfl, l, payload, rfl, hp⟩))]
  simp only [target, hostText, joinHostPort, itoa_eq_decimal, if_true, List.drop_one,
    List.tail_cons, Nat.mul_comm hi.val 256]
  by_cases hc : (58 : Byte) ∈ payload <;> simp [hc, str]

/-- Instance of C6 as amended: `example.com` with port bytes `[1, 187]` gives
`example.com:443`. -/
theorem domain_request_address_witness :
    forwardCalls (handleConn (envOk fwdConnects)
        (validInput 1 [0] 3 (11 :: str "example.com") 1 187 [])).trace
      = [(str "tcp", str "example.com:443", [])] :=
  (domain_request_address (envOk fwdConnects) 1 [0] 11 (str "example.com") 1 187 []
    rfl (by decide) rfl).trans (by decide)

/-- C8: for every valid request with address type 1, address bytes `[a, b, c, d]`
and port bytes `[hi, lo]`, the address passed to the forwarder is `a.b.c.d:P` with
`a`, `b`, `c`, `d` as decimal numerals and `P` the decimal numeral of
`256*hi + lo`, which is at most 65535; the forwarder is called once, unless the
method reply could not be written. -/
theorem ipv4_request_address (env : Env) (n : Byte) (ms : List Byte)
    (a b c d hi lo : Byte) (rest : List Byte)
    (hlen : ms.length = n.val) (h0 : (0 : Byte) ∈ ms) :
    forwardCalls (handleConn env (validInput n ms 1 [a, b, c, d] hi lo rest)).trace
      = (if env.writeResult 0 [5, 0] = (2, false) then
          [(str "tcp",
            decimal a.val ++ str "." ++ decimal b.val ++ str "." ++ decimal c.val ++ str "."
              ++ decimal d.val ++ str ":" ++ decimal (256 * hi.val + lo.val),
            rest)]
        else [])
    ∧ 256 * hi.val + lo.val ≤ 65535 := by
  refine ⟨?_, by have := hi.isLt; have := lo.isLt; omega⟩
  rw [forwardCalls_valid env n ms 1 [a, b, c, d] hi lo rest hlen h0 (Or.inl ⟨rfl, rfl⟩)]
  have hc : (58 : Byte) ∉ ipString [a, b, c, d] := by
    have h4 : ipString [a, b, c, d] = ip4String [a, b, c, d] := by simp [ipString, to4]
    rw [h4]; exact colon_not_mem_ip4String _
  rw [ipString_four] at hc
  simp only [target, hostText, joinHostPort, ipString_four, hc, if_false, itoa_eq_decimal,
    show ¬ ((1 : Byte) = 3) by decide, Nat.mul_comm hi.val 256]

/-- Instance of C8: `[93, 184, 216, 34]` with port bytes `[0, 80]` gives
`93.184.216.34:80`. -/
theorem ipv4_request_address_witness :
    forwardCalls (handleConn (envOk fwdConnects)
        (validInput 1 [0] 1 [93, 184, 216, 34] 0 80 [])).trace
      = [(str "tcp", str "93.184.216.34:80", [])] :=
  (ipv4_request_address (envOk fwdConnects) 1 [0] 93 184 216 34 0 80 []
    rfl (by decide)).1.trans (by decide)

/-- C7 fails as stated: the 16 address bytes of `::ffff:1.2.3.4` with port bytes
`[0, 22]` reach the forwarder as `1.2.3.4:22`, which is dotted decimal and has no
square brackets. -/
theorem ipv4_mapped_is_dotted :
    forwardCalls (handleConn (envOk fwdConnects)
        [5, 1, 0, 5, 1, 0, 4, 0, 0, 0, 0, 0, 0, 0, 0, 0, 0, 255, 255, 1, 2, 3, 4, 0, 22]).trace
      = [(str "tcp", str "1.2.3.4:22", [])]
    ∧ ¬ ∃ text, str "1.2.3.4:22" = str "[" ++ text ++ str "]:" ++ decimal (256 * 0 + 22) := by
  refine ⟨by decide, ?_⟩
  rintro ⟨text, h⟩
  have h1 := congrArg List.head? h
  have h2 : (str "[" ++ text ++ str "]:" ++ decimal (256 * 0 + 22)).head? = some 91 := rfl
  rw [h2] at h1
  exact absurd h1 (by decide)

/-- C7, amended: for every valid request with address type 4, 16 address bytes and
port bytes `[hi, lo]`: when the address is not an IPv4-mapped one (ten zero bytes,
then `0xff 0xff`), the address passed to the forwarder is the IPv6 text of the 16
bytes, a string of lower-case hexadecimal digits and at least one colon, enclosed
in square brackets and followed by `:` and the decimal numeral of `256*hi + lo`;
when it is IPv4-mapped, it is the dotted-decimal form of the last four bytes,
without brackets, followed by `:` and the port.  The forwarder is called once,
unless the method reply could not be written. -/
theorem ipv6_request_address (env : Env) (n : Byte) (ms ip : List Byte)
    (hi lo : Byte) (rest : List Byte)
    (hlen : ms.length = n.val) (h0 : (0 : Byte) ∈ ms) (hip : ip.length = 16) :
    forwardCalls (handleConn env (validInput n ms 4 ip hi lo rest)).trace
      = (if env.writeResult 0 [5, 0] = (2, false) then
          [(str "tcp",
            (if isV4Mapped ip = true then
              decimal (ip.getD 12 0).val ++ str "." ++ decimal (ip.getD 13 0).val ++ str "."
                ++ decimal (ip.getD 14 0).val ++ str "." ++ decimal (ip.getD 15 0).val
             else str "[" ++ ip6String ip ++ str "]")
              ++ str ":" ++ decimal (256 * hi.val + lo.val),
            rest)]
        else [])
    ∧ (58 : Byte) ∈ ip6String ip ∧ ∀ x ∈ ip6String ip, isIP6Char x := by
  refine ⟨?_, colon_mem_ip6String ip, isIP6Char_ip6String ip⟩
  rw [forwardCalls_valid env n ms 4 ip hi lo rest hlen h0 (Or.inr (Or.inr ⟨rfl, hip⟩))]
  simp only [target, hostText, show ¬ ((4 : Byte) = 3) by decide, if_false,
    ipString_sixteen ip hip, itoa_eq_decimal, Nat.mul_comm hi.val 256]
  by_cases hm : isV4Mapped ip = true
  · have hc : (58 : Byte) ∉ ip4String (ip.drop 12) := colon_not_mem_ip4String _
    have hdot : str "." = [46] := rfl
    rw [if_pos hm, if_pos hm, joinHostPort, if_neg hc]
    simp [ip4String, ubtoa_eq_decimal, hdot]
  · have hc : (58 : Byte) ∈ ip6String ip := colon_mem_ip6String ip
    have hb : str "]:" = str "]" ++ str ":" := rfl
    rw [if_neg hm, if_neg hm, joinHostPort, if_pos hc, hb]
    simp

/-- Instance of C7 as amended: fifteen zero bytes then 1, with port bytes
`[0, 22]`, give `[::1]:22`. -/
theorem ipv6_request_address_witness :
    forwardCalls (handleConn (envOk fwdConnects)
        (validInput 1 [0] 4 [0, 0, 0, 0, 0, 0, 0, 0, 0, 0, 0, 0, 0, 0, 0, 1] 0 22 [])).trace
      = [(str "tcp", str "[::1]:22", [])] :=
  (ipv6_request_address (envOk fwdConnects) 1 [0]
    [0, 0, 0, 0, 0, 0, 0, 0, 0, 0, 0, 0, 0, 0, 0, 1] 0 22 [] rfl (by decide) rfl).1.trans
    (by decide)

/-! ## Replies per session -/

theorem written_readsOnly {rd : List Event} (h : readsOnly rd) : written rd = [] := by
  induction rd with
  | nil => rfl
  | cons e l ih =>
    obtain ⟨k, got, rfl⟩ := h e (List.mem_cons_self _ _)
    simpa [written] using ih (fun e he => h e (List.mem_cons_of_mem _ he))

theorem callbackReplies_readsOnly {rd : List Event} (h : readsOnly rd) :
    callbackReplies rd = [] := by
  induction rd with
  | nil => rfl
  | cons e l ih =>
    obtain ⟨k, got, rfl⟩ := h e (List.mem_cons_self _ _)
    simpa [callbackReplies] using ih (fun e he => h e (List.mem_cons_of_mem _ he))

theorem errorReplies_readsOnly {rd : List Event} (h : readsOnly rd) :
    errorReplies rd = [] := by
  induction rd with
  | nil => rfl
  | cons e l ih =>
    obtain ⟨k, got, rfl⟩ := h e (List.mem_cons_self _ _)
    simpa [errorReplies] using ih (fun e he => h e (List.mem_cons_of_mem _ he))

theorem replies_readsOnly {rd : List Event} (h : readsOnly rd) : replies rd = [] := by
  simp [replies, written_readsOnly h]

theorem ReqSuffix.replies_le (env : Env) {tail : List Event} (h : ReqSuffix env tail)
    (hf : Obedient env) :
    (replies tail).length ≤ 1 ∧ (callbackReplies tail = [] ∨ errorReplies tail = []) := by
  obtain ⟨rd, hrd, h | ⟨n, f, h⟩ | ⟨addr, unread, nw, n, f, h⟩⟩ := h
  · subst h
    simp [replies_readsOnly hrd, callbackReplies_readsOnly hrd]
  · subst h
    simp only [replies_append, callbackReplies_append, replies_readsOnly hrd,
      callbackReplies_readsOnly hrd, List.nil_append]
    simp [replies, written, callbackReplies]
  · subst h
    obtain ⟨hk, he⟩ := hf (str "tcp") addr unread
    rw [← List.singleton_append]
    simp only [replies_append, callbackReplies_append, errorReplies_append,
      replies_readsOnly hrd, callbackReplies_readsOnly hrd, errorReplies_readsOnly hrd,
      List.nil_append, callbackReplies_cbEvents, errorReplies_cbEvents]
    by_cases hb : (env.forwarder (str "tcp") addr unread).2 = true
    · simp [he hb, hb, replies, written, cbEvents, callbackReplies, errorReplies]
    · simp only [hb]
      simp [replies, written, written_cbEvents, callbackReplies, errorReplies]
      omega

theorem ReqSuffix.errorReplies_le (env : Env) {tail : List Event} (h : ReqSuffix env tail) :
    (errorReplies tail).length ≤ 1 := by
  obtain ⟨rd, hrd, h | ⟨n, f, h⟩ | ⟨addr, unread, nw, n, f, h⟩⟩ := h
  · subst h
    simp [errorReplies_readsOnly hrd]
  · subst h
    simp only [errorReplies_append, errorReplies_readsOnly hrd, List.nil_append]
    simp [errorReplies]
  · subst h
    rw [← List.singleton_append]
    simp only [errorReplies_append, errorReplies_readsOnly hrd, List.nil_append,
      errorReplies_cbEvents]
    split <;> simp [errorReplies]

/-- C9 fails as stated: when the forwarder invokes the callback and then returns
an error, the session of an ordinary IPv4 request has two 10-byte replies, the
success reply written by the callback and the status-4 reply written by the error
path. -/
theorem callback_and_error_both_reply :
    replies (handleConn (envOk fwdConnectsThenFails)
        [5, 1, 0, 5, 1, 0, 1, 10, 0, 0, 1, 0, 80]).trace
      = [[5, 0, 0, 1, 0, 0, 0, 0, 0, 0], [5, 4, 0, 1, 0, 0, 0, 0, 0, 0]]
    ∧ callbackReplies (handleConn (envOk fwdConnectsThenFails)
        [5, 1, 0, 5, 1, 0, 1, 10, 0, 0, 1, 0, 80]).trace
      = [[5, 0, 0, 1, 0, 0, 0, 0, 0, 0]]
    ∧ errorReplies (handleConn (envOk fwdConnectsThenFails)
        [5, 1, 0, 5, 1, 0, 1, 10, 0, 0, 1, 0, 80]).trace
      = [[5, 4, 0, 1, 0, 0, 0, 0, 0, 0]] := by
  decide

/-- C9, amended: in every session, whatever the forwarder does, the error paths of
`handleConn` write at most one 10-byte reply; and when the forwarder invokes the
readiness callback at most once, and not at all before it returns an error, at
most one 10-byte reply is written in the session and it is never the case that
both the callback and the error path write one. -/
theorem at_most_one_reply (env : Env) (input : List Byte) :
    (errorReplies (handleConn env input).trace).length ≤ 1 ∧
    (Obedient env →
      (replies (handleConn env input).trace).length ≤ 1 ∧
      (callbackReplies (handleConn env input).trace = []
        ∨ errorReplies (handleConn env input).trace = [])) := by
  obtain ⟨rd, hrd, h | ⟨s, n, f, tail, -, h, hs⟩⟩ := handleConn_shape env input
  · rw [h]
    simp [replies_readsOnly hrd, callbackReplies_readsOnly hrd, errorReplies_readsOnly hrd]
  · have hsplit : rd ++ Event.write [5, s] n f :: tail
        = rd ++ ([Event.write [5, s] n f] ++ tail) := rfl
    have he : errorReplies (handleConn env input).trace = errorReplies tail := by
      rw [h, hsplit]
      simp only [errorReplies_append, errorReplies_readsOnly hrd, List.nil_append]
      simp [errorReplies]
    have hc : callbackReplies (handleConn env input).trace = callbackReplies tail := by
      rw [h, hsplit]
      simp only [callbackReplies_append, callbackReplies_readsOnly hrd, List.nil_append]
      simp [callbackReplies]
    have hr : replies (handleConn env input).trace = replies tail := by
      rw [h, hsplit]
      simp only [replies_append, replies_readsOnly hrd, List.nil_append]
      simp [replies, written]
    rw [he, hc, hr]
    exact ⟨ReqSuffix.errorReplies_le env hs, fun hf => ReqSuffix.replies_le env hs hf⟩

/-- Instance of C9 as amended: a forwarder that invokes the callback once and
succeeds, on an IPv4 request. -/
theorem at_most_one_reply_witness :
    (errorReplies (handleConn (envOk fwdConnects)
        [5, 1, 0, 5, 1, 0, 1, 10, 0, 0, 1, 0, 80]).trace).length ≤ 1 ∧
    (replies (handleConn (envOk fwdConnects)
        [5, 1, 0, 5, 1, 0, 1, 10, 0, 0, 1, 0, 80]).trace).length ≤ 1 ∧
    (callbackReplies (handleConn (envOk fwdConnects)
        [5, 1, 0, 5, 1, 0, 1, 10, 0, 0, 1, 0, 80]).trace = []
      ∨ errorReplies (handleConn (envOk fwdConnects)
        [5, 1, 0, 5, 1, 0, 1, 10, 0, 0, 1, 0, 80]).trace = []) :=
  ⟨(at_most_one_reply (envOk fwdConnects) [5, 1, 0, 5, 1, 0, 1, 10, 0, 0, 1, 0, 80]).1,
    (at_most_one_reply (envOk fwdConnects) [5, 1, 0, 5, 1, 0, 1, 10, 0, 0, 1, 0, 80]).2
      (fun _ _ _ => ⟨Nat.le_refl 1, fun h => Bool.noConfusion h⟩)⟩

/-- C10 fails as stated: when the forwarder invokes the callback and then returns
an error on a valid domain-name request, the success reply is written before the
status-4 reply. -/
theorem success_reply_before_error_reply :
    written (handleConn (envOk fwdConnectsThenFails)
        [5, 1, 0, 5, 1, 0, 3, 1, 97, 0, 80]).trace
      = [[5, 0], [5, 0, 0, 1, 0, 0, 0, 0, 0, 0], [5, 4, 0, 1, 0, 0, 0, 0, 0, 0]]
    ∧ (handleConn (envOk fwdConnectsThenFails)
        [5, 1, 0, 5, 1, 0, 3, 1, 97, 0, 80]).result = .error .hostUnreachable := by
  decide

/-- C10, amended: for every valid request that reaches the forwarder, if the
forwarder returns an error then `handleConn` writes `[5,4,0,1,0,0,0,0,0,0]` as the
last bytes of the session and returns an error; the bytes written are the method
reply, one success reply for each time the forwarder invoked the callback before
it returned, and the status-4 reply, so the success reply is not written when the
forwarder fails without having invoked the callback. -/
theorem forward_error_reply (env : Env) (n : Byte) (ms : List Byte) (atyp : Byte)
    (addr : List Byte) (hi lo : Byte) (rest : List Byte)
    (hlen : ms.length = n.val) (h0 : (0 : Byte) ∈ ms)
    (hw : env.writeResult 0 [5, 0] = (2, false)) (hv : ValidAddr atyp addr)
    (he : (env.forwarder (str "tcp") (target atyp addr hi lo) rest).2 = true) :
    (written (handleConn env (validInput n ms atyp addr hi lo rest)).trace).getLast?
        = some [5, 4, 0, 1, 0, 0, 0, 0, 0, 0] ∧
    (handleConn env (validInput n ms atyp addr hi lo rest)).result
        = .error .hostUnreachable ∧
    written (handleConn env (validInput n ms atyp addr hi lo rest)).trace
        = [[5, 0]]
          ++ List.replicate (env.forwarder (str "tcp") (target atyp addr hi lo) rest).1
              [5, 0, 0, 1, 0, 0, 0, 0, 0, 0]
          ++ [[5, 4, 0, 1, 0, 0, 0, 0, 0, 0]] ∧
    ((env.forwarder (str "tcp") (target atyp addr hi lo) rest).1 = 0 →
      [5, 0, 0, 1, 0, 0, 0, 0, 0, 0]
        ∉ written (handleConn env (validInput n ms atyp addr hi lo rest)).trace) := by
  have hwr : written (handleConn env (validInput n ms atyp addr hi lo rest)).trace
      = [[5, 0]]
        ++ List.replicate (env.forwarder (str "tcp") (target atyp addr hi lo) rest).1
            [5, 0, 0, 1, 0, 0, 0, 0, 0, 0]
        ++ [[5, 4, 0, 1, 0, 0, 0, 0, 0, 0]] := by
    rw [handleConn_valid env n ms atyp addr hi lo rest hlen h0 hw hv, written_forwardRun,
      written_requestTrace, if_pos he]
  refine ⟨?_, ?_, hwr, ?_⟩
  · rw [hwr, List.getLast?_append]; rfl
  · rw [handleConn_valid env n ms atyp addr hi lo rest hlen h0 hw hv]
    simp [forwardRun, he]
  · intro hk
    rw [hwr, hk]
    decide

/-- Instance of C10 as amended: a forwarder that fails without invoking the
callback, on an IPv4 request. -/
theorem forward_error_reply_witness :
    (written (handleConn (envOk fwdFails)
        (validInput 1 [0] 1 [10, 0, 0, 1] 0 80 [])).trace).getLast?
        = some [5, 4, 0, 1, 0, 0, 0, 0, 0, 0] ∧
    (handleConn (envOk fwdFails) (validInput 1 [0] 1 [10, 0, 0, 1] 0 80 [])).result
        = .error .hostUnreachable ∧
    written (handleConn (envOk fwdFails) (validInput 1 [0] 1 [10, 0, 0, 1] 0 80 [])).trace
        = [[5, 0], [5, 4, 0, 1, 0, 0, 0, 0, 0, 0]] ∧
    [5, 0, 0, 1, 0, 0, 0, 0, 0, 0]
        ∉ written (handleConn (envOk fwdFails)
            (validInput 1 [0] 1 [10, 0, 0, 1] 0 80 [])).trace :=
  have h := forward_error_reply (envOk fwdFails) 1 [0] 1 [10, 0, 0, 1] 0 80 []
    rfl (by decide) rfl (Or.inl ⟨rfl, rfl⟩) rfl
  ⟨h.1, h.2.1, h.2.2.1, h.2.2.2 rfl⟩

/-! ## `handleConn` without the buffer -/

theorem exists_four {l : List Byte} (h : 4 ≤ l.length) :
    ∃ a b c d rest, l = a :: b :: c :: d :: rest := by
  match l, h with
  | a :: b :: c :: d :: rest, _ => exact ⟨a, b, c, d, rest, rfl⟩

theorem portStage_session (env : Env) (st : St) (host : List Byte)
    (hbuf : 2 ≤ st.buf.length) :
    portStage env st respInit host = sessionPort env st.trace st.nwrites host st.input := by
  rcases hin : st.input with _ | ⟨hi, _ | ⟨lo, rest⟩⟩
  · unfold portStage
    rw [readFull_short st 2 hbuf (by simp [hin])]
    simp [sessionPort, hin]
  · unfold portStage
    rw [readFull_short st 2 hbuf (by simp [hin])]
    simp [sessionPort, hin]
  · rw [portStage_eq env st respInit host hi lo rest hbuf hin, forwardStage_eq]
    simp [sessionPort]

theorem addressStage_session (env : Env) (st : St) (atyp : Byte)
    (hbuf : 256 ≤ st.buf.length) :
    addressStage env st respInit atyp
      = sessionAddress env st.trace st.nwrites atyp st.input := by
  by_cases h1 : atyp = 1
  · subst h1
    by_cases hl : 4 ≤ st.input.length
    · obtain ⟨a, b, c, d, rest, hin⟩ := exists_four hl
      rw [addressStage_ipv4 env st respInit a b c d rest (by omega) hin,
        portStage_session env _ _ (by simp; try omega)]
      simp [sessionAddress, hin]
    · unfold addressStage
      rw [readFull_short st 4 (by omega) (by omega)]
      simp [sessionAddress, hl]
  · by_cases h3 : atyp = 3
    · subst h3
      rcases hin : st.input with _ | ⟨l, r⟩
      · unfold addressStage
        rw [readFull_short st 1 (by omega) (by simp [hin])]
        simp [sessionAddress, hin]
      · have hlt := l.isLt
        by_cases hl : l.val ≤ r.length
        · rw [addressStage_domain env st respInit l (r.take l.val) (r.drop l.val) hbuf
            (by simp [hin]) (by simp [hl])]
          rw [portStage_session env _ _ (by simp; try omega)]
          simp [sessionAddress, hl]
        · unfold addressStage
          rw [readFull_full st 1 [l] r (by omega) hin rfl]
          simp only [show ¬ ((3 : Byte) = 1) by decide, if_false, if_true,
            List.singleton_append, List.getElem?_cons_zero]
          rw [readFull_short _ l.val (by simp; try omega) (by simpa using hl)]
          simp [sessionAddress, hl]
    · by_cases h4 : atyp = 4
      · subst h4
        by_cases hl : 16 ≤ st.input.length
        · rw [addressStage_ipv6 env st respInit (st.input.take 16) (st.input.drop 16)
            (by omega) (by simp) (by simp [hl])]
          rw [portStage_session env _ _ (by simp; try omega)]
          simp [sessionAddress, hl, show ¬ ((4 : Byte) = 1) by decide,
            show ¬ ((4 : Byte) = 3) by decide]
        · unfold addressStage
          rw [readFull_short st 16 (by omega) (by omega)]
          simp [sessionAddress, hl, show ¬ ((4 : Byte) = 1) by decide,
            show ¬ ((4 : Byte) = 3) by decide]
      · rw [addressStage_other env st atyp h1 h3 h4]
        simp [sessionAddress, h1, h3, h4]

theorem requestStage_session (env : Env) (st : St) (hbuf : 256 ≤ st.buf.length) :
    requestStage env st = sessionRequest env st.trace st.nwrites st.input := by
  by_cases hl : 4 ≤ st.input.length
  · obtain ⟨v, c, r, a, rest, hin⟩ := exists_four hl
    rw [requestStage_header env st v c r a rest (by omega) hin, hin]
    by_cases hbad : v ≠ 5 ∨ c ≠ 1 ∨ r ≠ 0
    · simp [sessionRequest, hbad]
    · simp only [hbad, if_false, sessionRequest]
      rw [addressStage_session env _ a (by simp; try omega)]
  · unfold requestStage
    rw [readFull_short st 4 (by omega) (by omega)]
    rcases hin : st.input with _ | ⟨a, _ | ⟨b, _ | ⟨c, _ | ⟨d, rest⟩⟩⟩⟩
    · simp [sessionRequest]
    · simp [sessionRequest]
    · simp [sessionRequest]
    · simp [sessionRequest]
    · simp [hin] at hl

/-- On every input and in every environment `handleConn` does what `session`
describes; in particular no slice or index of the scratch buffer is out of range. -/
theorem handleConn_eq_session (env : Env) (input : List Byte) :
    handleConn env input = session env input := by
  rcases input with _ | ⟨b0, _ | ⟨b1, rest⟩⟩
  · unfold handleConn
    rw [readFull_short (initSt []) 2 (by simp [initSt, length_make]) (by simp [initSt])]
    simp [session, initSt]
  · unfold handleConn
    rw [readFull_short (initSt [b0]) 2 (by simp [initSt, length_make]) (by simp [initSt])]
    simp [session, initSt]
  · by_cases h5 : b0 = 5
    · subst h5
      have hn := b1.isLt
      by_cases hl : b1.val ≤ rest.length
      · have h := handleConn_hello env b1 (rest.take b1.val) (rest.drop b1.val) (by simp [hl])
        simp only [List.cons_append, List.take_append_drop] at h
        rw [h]
        simp only [session, ne_eq, not_true_eq_false, if_false, hl, if_true]
        split
        · rfl
        · split
          · rfl
          · rw [requestStage_session env _ (by
              simp only
              rw [helloBuf_length b1 _ (by simp [hl])]
              decide)]
      · unfold handleConn
        rw [readFull_full (initSt (5 :: b1 :: rest)) 2 [5, b1] rest
          (by simp [initSt, length_make]) (by simp [initSt]) rfl]
        simp only [initSt, List.cons_append, List.nil_append, List.getElem?_cons_zero,
          List.getElem?_cons_succ, ne_eq, not_true_eq_false, if_false]
        rw [readFull_short _ b1.val (by simp [length_make]; omega) (by simpa using hl)]
        simp [session, hl]
    · unfold handleConn
      rw [readFull_full (initSt (b0 :: b1 :: rest)) 2 [b0, b1] rest
        (by simp [initSt, length_make]) (by simp [initSt]) rfl]
      simp [initSt, h5, session]

/-! ## Every run is one of the outcomes -/

theorem forwardRun_one (env : Env) (tr : List Event) (address unread : List Byte) :
    forwardRun env tr address unread 1
      = ⟨tr ++ forwardTail env address unread, forwardResult env address unread⟩ := by
  unfold forwardRun forwardTail forwardResult
  simp only
  split <;> simp

theorem sessionPort_cases (env : Env) (tr : List Event) (host input : List Byte) :
    (input.length < 2 ∧
        sessionPort env tr 1 host input = ⟨tr ++ [.read 2 input], .error .shortPort⟩) ∨
      ∃ hi lo rest, input = hi :: lo :: rest ∧
        sessionPort env tr 1 host input
          = ⟨tr ++ [.read 2 [hi, lo]]
              ++ forwardTail env (joinHostPort host (itoa (hi.val * 256 + lo.val))) rest,
            forwardResult env (joinHostPort host (itoa (hi.val * 256 + lo.val))) rest⟩ := by
  rcases input with _ | ⟨hi, _ | ⟨lo, rest⟩⟩
  · exact Or.inl ⟨by simp, by simp [sessionPort]⟩
  · exact Or.inl ⟨by simp, by simp [sessionPort]⟩
  · exact Or.inr ⟨hi, lo, rest, rfl, by simp [sessionPort, forwardRun_one]⟩

theorem split_at {k : Nat} {l : List Byte} (h : k ≤ l.length) :
    ∃ a b, l = a ++ b ∧ a.length = k :=
  ⟨l.take k, l.drop k, (List.take_append_drop k l).symm, by simp [h]⟩

/-- The port step after a complete address: a short port read, or the forwarder. -/
theorem sessionPort_outcome (env : Env) (tr : List Event) (atyp : Byte)
    (addr input : List Byte) (hv : ValidAddr atyp addr) :
    ∃ tail res,
      sessionPort env (tr ++ [.read 4 [5, 1, 0, atyp]] ++ addrReads atyp addr) 1
          (hostText atyp addr) input = ⟨tr ++ tail, res⟩
        ∧ ReqOutcome env (5 :: 1 :: 0 :: atyp :: (addr ++ input)) tail res := by
  rcases sessionPort_cases env (tr ++ [.read 4 [5, 1, 0, atyp]] ++ addrReads atyp addr)
    (hostText atyp addr) input with ⟨hs, he⟩ | ⟨hi, lo, rest, rfl, he⟩
  · exact ⟨_, _, by rw [he]; simp only [List.append_assoc],
      ReqOutcome.shortPort atyp addr input hv hs⟩
  · refine ⟨_, _, ?_, ReqOutcome.forwarded atyp addr hi lo rest hv⟩
    rw [he]
    simp only [List.append_assoc, target]

theorem sessionAddress_outcome (env : Env) (tr : List Event) (atyp : Byte)
    (input : List Byte) :
    ∃ tail res,
      sessionAddress env (tr ++ [.read 4 [5, 1, 0, atyp]]) 1 atyp input = ⟨tr ++ tail, res⟩
        ∧ ReqOutcome env (5 :: 1 :: 0 :: atyp :: input) tail res := by
  by_cases h1 : atyp = 1
  · subst h1
    by_cases hl : 4 ≤ input.length
    · obtain ⟨addr, rest, rfl, ha⟩ := split_at hl
      have hv : ValidAddr 1 addr := Or.inl ⟨rfl, ha⟩
      obtain ⟨tail, res, he, ho⟩ := sessionPort_outcome env tr 1 addr rest hv
      refine ⟨tail, res, ?_, ho⟩
      rw [← he]
      simp [sessionAddress, ← ha, addrReads, hostText]
    · exact ⟨_, _, by simp [sessionAddress, hl], ReqOutcome.shortIPv4 input (by omega)⟩
  · by_cases h3 : atyp = 3
    · subst h3
      rcases input with _ | ⟨l, r⟩
      · exact ⟨_, _, by simp [sessionAddress], ReqOutcome.shortHostnameLen⟩
      · by_cases hl : l.val ≤ r.length
        · obtain ⟨payload, rest, rfl, hp⟩ := split_at hl
          have hv : ValidAddr 3 (l :: payload) := Or.inr (Or.inl ⟨rfl, l, payload, rfl, hp⟩)
          obtain ⟨tail, res, he, ho⟩ := sessionPort_outcome env tr 3 (l :: payload) rest hv
          refine ⟨tail, res, ?_, ho⟩
          rw [← he]
          simp [sessionAddress, ← hp, addrReads, hostText]
        · exact ⟨_, _, by simp [sessionAddress, hl],
            ReqOutcome.shortHostname l r (by omega)⟩
    · by_cases h4 : atyp = 4
      · subst h4
        by_cases hl : 16 ≤ input.length
        · obtain ⟨addr, rest, rfl, ha⟩ := split_at hl
          have hv : ValidAddr 4 addr := Or.inr (Or.inr ⟨rfl, ha⟩)
          obtain ⟨tail, res, he, ho⟩ := sessionPort_outcome env tr 4 addr rest hv
          refine ⟨tail, res, ?_, ho⟩
          rw [← he]
          simp [sessionAddress, ← ha, addrReads, hostText,
            show ¬ ((4 : Byte) = 1) by decide, show ¬ ((4 : Byte) = 3) by decide]
        · exact ⟨_, _, by simp [sessionAddress, hl, show ¬ ((4 : Byte) = 1) by decide,
            show ¬ ((4 : Byte) = 3) by decide], ReqOutcome.shortIPv6 input (by omega)⟩
      · exact ⟨_, _, by simp [sessionAddress, h1, h3, h4],
          ReqOutcome.badAtyp atyp input h1 h3 h4⟩

theorem sessionRequest_outcome (env : Env) (tr : List Event) (input : List Byte) :
    ∃ tail res, sessionRequest env tr 1 input = ⟨tr ++ tail, res⟩
      ∧ ReqOutcome env input tail res := by
  by_cases hl : 4 ≤ input.length
  · obtain ⟨v, c, r, a, rest, rfl⟩ := exists_four hl
    by_cases hbad : v ≠ 5 ∨ c ≠ 1 ∨ r ≠ 0
    · exact ⟨_, _, by simp [sessionRequest, hbad], ReqOutcome.badHeader v c r a rest hbad⟩
    · push_neg at hbad
      obtain ⟨rfl, rfl, rfl⟩ := hbad
      obtain ⟨tail, res, he, ho⟩ := sessionAddress_outcome env tr a rest
      exact ⟨tail, res, by rw [← he]; simp [sessionRequest], ho⟩
  · refine ⟨_, _, ?_, ReqOutcome.shortRequest input (by omega)⟩
    rcases input with _ | ⟨a, _ | ⟨b, _ | ⟨c, _ | ⟨d, rest⟩⟩⟩⟩
    · simp [sessionRequest]
    · simp [sessionRequest]
    · simp [sessionRequest]
    · simp [sessionRequest]
    · simp at hl

/-- Every run of `handleConn` is one of the outcomes. -/
theorem handleConn_outcome (env : Env) (input : List Byte) :
    Outcome env input (handleConn env input) := by
  rw [handleConn_eq_session]
  rcases input with _ | ⟨b0, _ | ⟨b1, rest⟩⟩
  · exact Outcome.shortFirstMsg [] (by simp)
  · exact Outcome.shortFirstMsg [b0] (by simp)
  · by_cases h5 : b0 = 5
    · subst h5
      by_cases hl : b1.val ≤ rest.length
      · obtain ⟨ms, rest, rfl, hlen⟩ := split_at hl
        have ht : List.take b1.val (ms ++ rest) = ms := by rw [← hlen]; simp
        have hd : List.drop b1.val (ms ++ rest) = rest := by rw [← hlen]; simp
        simp only [session, ne_eq, not_true_eq_false, if_false, hl, if_true, ht, hd]
        by_cases hw : (env.writeResult 0 [5, selected ms]).1 ≠ 2
            ∨ (env.writeResult 0 [5, selected ms]).2 = true
        · rw [if_pos hw]
          exact Outcome.shortHello b1 ms rest hlen hw
        · rw [if_neg hw]
          have hw2 : env.writeResult 0 [5, selected ms] = (2, false) := by
            push_neg at hw
            rcases hr : env.writeResult 0 [5, selected ms] with ⟨a, b⟩
            rw [hr] at hw
            simp at hw
            simp [hw.1, hw.2]
          by_cases h0 : (0 : Byte) ∈ ms
          · rw [selected_of_mem h0] at hw2 ⊢
            simp only [ne_eq, not_true_eq_false, if_false, hw2]
            obtain ⟨tail, res, he, ho⟩ := sessionRequest_outcome env
              [.read 2 [5, b1], .read b1.val ms, .write [5, 0] 2 false] rest
            rw [he]
            exact Outcome.request b1 ms rest tail res hlen hw2 h0 ho
          · rw [selected_of_not_mem h0] at hw2 ⊢
            simp only [hw2]
            rw [if_pos (by decide)]
            exact Outcome.authNotFound b1 ms rest hlen hw2 h0
      · simp only [session, ne_eq, not_true_eq_false, if_false, hl]
        exact Outcome.shortAuthMethods b1 rest (by omega)
    · simp only [session, ne_eq, h5, not_false_eq_true, if_true]
      exact Outcome.wrongFirstByte b0 b1 rest h5

/-! ## Observations on the parts of an outcome -/

theorem reads_cbEvents (env : Env) (resp : List Byte) (nw k : Nat) :
    reads (cbEvents env resp nw k) = [] := by
  induction k generalizing nw with
  | zero => rfl
  | succ k ih => simp [cbEvents, reads, ih]

theorem reads_forwardTail (env : Env) (address unread : List Byte) :
    reads (forwardTail env address unread) = [] := by
  unfold forwardTail
  split <;> simp [reads, reads_append, reads_cbEvents]

theorem forwardCalls_forwardTail (env : Env) (address unread : List Byte) :
    forwardCalls (forwardTail env address unread) = [(str "tcp", address, unread)] := by
  unfold forwardTail
  split <;> simp [forwardCalls, forwardCalls_append, forwardCalls_cbEvents]

theorem written_forwardTail (env : Env) (address unread : List Byte) :
    written (forwardTail env address unread)
      = List.replicate (env.forwarder (str "tcp") address unread).1
          [5, 0, 0, 1, 0, 0, 0, 0, 0, 0]
        ++ (if (env.forwarder (str "tcp") address unread).2 = true
            then [[5, 4, 0, 1, 0, 0, 0, 0, 0, 0]] else []) := by
  unfold forwardTail
  split <;> simp [written, written_append, written_cbEvents]

theorem callbackReplies_forwardTail (env : Env) (address unread : List Byte) :
    callbackReplies (forwardTail env address unread)
      = List.replicate (env.forwarder (str "tcp") address unread).1
          [5, 0, 0, 1, 0, 0, 0, 0, 0, 0] := by
  unfold forwardTail
  split <;> simp [callbackReplies, callbackReplies_append, callbackReplies_cbEvents]

theorem reads_addrReads (atyp : Byte) (addr : List Byte) :
    reads (addrReads atyp addr)
      = if atyp = 3 then [(1, addr.take 1), (addr.length - 1, addr.drop 1)]
        else [(addr.length, addr)] := by
  unfold addrReads
  split <;> simp [reads]

theorem forwardCalls_addrReads (atyp : Byte) (addr : List Byte) :
    forwardCalls (addrReads atyp addr) = [] := by
  unfold addrReads
  split <;> simp [forwardCalls]

theorem written_addrReads (atyp : Byte) (addr : List Byte) :
    written (addrReads atyp addr) = [] := by
  unfold addrReads
  split <;> simp [written]

theorem callbackReplies_addrReads (atyp : Byte) (addr : List Byte) :
    callbackReplies (addrReads atyp addr) = [] := by
  unfold addrReads
  split <;> simp [callbackReplies]

theorem ReqOutcome.req_result_ne {env : Env} {input : List Byte} {tail : List Event}
    {res : Result} (h : ReqOutcome env input tail res) : res ≠ .outOfRange := by
  cases h <;> simp [forwardResult]
  split <;> simp

theorem Outcome.result_ne {env : Env} {input : List Byte} {run : Run}
    (h : Outcome env input run) : run.result ≠ .outOfRange := by
  cases h with
  | request n ms rest tail res hlen hw h0 hr => exact hr.req_result_ne
  | _ => simp

/-! ## Bounds of the scratch buffer -/

theorem addrReads_want_le (atyp : Byte) (addr : List Byte) (hv : ValidAddr atyp addr) :
    ∀ p ∈ reads (addrReads atyp addr), p.1 ≤ 255 := by
  rw [reads_addrReads]
  rcases hv with ⟨rfl, ha⟩ | ⟨rfl, l, payload, rfl, hp⟩ | ⟨rfl, ha⟩
  · simp [ha]
  · have := l.isLt
    simp [hp]
    omega
  · simp [ha, show ¬ ((4 : Byte) = 3) by decide]

theorem ReqOutcome.want_le {env : Env} {input : List Byte} {tail : List Event}
    {res : Result} (h : ReqOutcome env input tail res) :
    ∀ p ∈ reads tail, p.1 ≤ 255 := by
  cases h with
  | forwarded atyp addr hi lo rest hv =>
    intro p hp
    simp only [reads_append, reads_forwardTail, List.append_nil, List.mem_append] at hp
    rcases hp with (hp | hp) | hp
    · simp [reads] at hp; simp [hp]
    · exact addrReads_want_le atyp addr hv p hp
    · simp [reads] at hp; simp [hp]
  | shortPort atyp addr rest hv h =>
    intro p hp
    simp only [reads_append, List.mem_append] at hp
    rcases hp with (hp | hp) | hp
    · simp [reads] at hp; simp [hp]
    · exact addrReads_want_le atyp addr hv p hp
    · simp [reads] at hp; simp [hp]
  | shortHostname l r h =>
    have := l.isLt
    simp [reads]
    omega
  | _ => simp [reads]

/-- C16: on every input and in every environment, no slice or index expression of
the 1024-byte scratch buffer is out of range: `handleConn` never ends in the
out-of-range outcome, and every `buf[:k]` it reads into has `k ≤ 255`, the method
count and the domain-name length being single bytes, which is within the 1024
bytes of the buffer. -/
theorem scratch_buffer_in_bounds (env : Env) (input : List Byte) :
    (handleConn env input).result ≠ .outOfRange ∧
    (∀ p ∈ reads (handleConn env input).trace, p.1 ≤ 255) ∧
    (initSt input).buf.length = 1024 := by
  refine ⟨(handleConn_outcome env input).result_ne, ?_, by simp [initSt, length_make]⟩
  have h := handleConn_outcome env input
  generalize handleConn env input = run at h
  cases h with
  | request n ms rest tail res hlen hw h0 hr =>
    have := n.isLt
    intro p hp
    simp only [reads_append, List.mem_append] at hp
    rcases hp with hp | hp
    · simp [helloTrace, reads] at hp
      rcases hp with rfl | rfl
      · simp
      · simp; omega
    · exact hr.want_le p hp
  | shortAuthMethods n rest h =>
    have := n.isLt
    simp [reads]; omega
  | shortHello n ms rest hlen hw =>
    have := n.isLt
    simp [reads]; omega
  | authNotFound n ms rest hlen hw h0 =>
    have := n.isLt
    simp [reads]; omega
  | _ => simp [reads]

/-! ## What is written -/

theorem ReqSuffix.written_replies {env : Env} {tail : List Event} (h : ReqSuffix env tail) :
    ∀ r ∈ written tail, IsReply r := by
  obtain ⟨rd, hrd, h | ⟨n, f, h⟩ | ⟨addr, unread, nw, n, f, h⟩⟩ := h
  · subst h
    simp [written_readsOnly hrd]
  · subst h
    simp only [written_append, written_readsOnly hrd, List.nil_append]
    intro r hr
    simp [written] at hr
    exact ⟨7, Or.inr (Or.inr rfl), hr⟩
  · subst h
    rw [← List.singleton_append]
    simp only [written_append, written_readsOnly hrd, List.nil_append, written_cbEvents]
    intro r hr
    simp only [List.mem_append] at hr
    rcases hr with hr | hr | hr
    · simp [written] at hr
    · exact ⟨0, Or.inl rfl, (List.mem_replicate.mp hr).2⟩
    · split at hr
      · simp [written] at hr
        exact ⟨4, Or.inr (Or.inl rfl), hr⟩
      · simp [written] at hr

/-- C13: on every input and for every forwarder outcome, the chunks `handleConn`
writes are: nothing at all; or first the 2-byte method reply `[5, s]` with `s`
either `0x00` or `0xff`, followed only by 10-byte replies of the form
`[5, status, 0, 1, 0,0,0,0, 0,0]` with status `0x00`, `0x04` or `0x07`. -/
theorem only_documented_bytes_written (env : Env) (input : List Byte) :
    written (handleConn env input).trace = [] ∨
      ∃ s rs, (s = 0 ∨ s = 0xff) ∧ written (handleConn env input).trace = [5, s] :: rs
        ∧ ∀ r ∈ rs, IsReply r := by
  obtain ⟨rd, hrd, h | ⟨s, n, f, tail, hs, h, hsuf⟩⟩ := handleConn_shape env input
  · exact Or.inl (by rw [h]; exact written_readsOnly hrd)
  · refine Or.inr ⟨s, written tail, hs, ?_, hsuf.written_replies⟩
    have hsplit : rd ++ Event.write [5, s] n f :: tail
        = rd ++ ([Event.write [5, s] n f] ++ tail) := rfl
    rw [h, hsplit]
    simp only [written_append, written_readsOnly hrd, List.nil_append]
    rfl

/-! ## The success path -/

theorem callbackReplies_requestTrace (n : Byte) (ms : List Byte) (atyp : Byte)
    (addr : List Byte) (hi lo : Byte) :
    callbackReplies (requestTrace n ms atyp addr hi lo) = [] := by
  unfold requestTrace helloTrace
  simp only [callbackReplies_append, callbackReplies_addrReads]
  rfl

theorem handleConn_valid_trace (env : Env) (n : Byte) (ms : List Byte) (atyp : Byte)
    (addr : List Byte) (hi lo : Byte) (rest : List Byte)
    (hlen : ms.length = n.val) (h0 : (0 : Byte) ∈ ms)
    (hw : env.writeResult 0 [5, 0] = (2, false)) (hv : ValidAddr atyp addr) :
    handleConn env (validInput n ms atyp addr hi lo rest)
      = ⟨requestTrace n ms atyp addr hi lo ++ forwardTail env (target atyp addr hi lo) rest,
          forwardResult env (target atyp addr hi lo) rest⟩ := by
  rw [handleConn_valid env n ms atyp addr hi lo rest hlen h0 hw hv, forwardRun_one]

/-- C11: for every valid request, of any address type, address and port, every
write made by the readiness callback is exactly `[5,0,0,1,0,0,0,0,0,0]`, one for
each invocation by the forwarder; and if the forwarder then returns no error,
`handleConn` returns no error and writes nothing after the callback's replies. -/
theorem callback_writes_success_reply (env : Env) (n : Byte) (ms : List Byte) (atyp : Byte)
    (addr : List Byte) (hi lo : Byte) (rest : List Byte)
    (hlen : ms.length = n.val) (h0 : (0 : Byte) ∈ ms) (hv : ValidAddr atyp addr) :
    (∀ d ∈ callbackReplies (handleConn env (validInput n ms atyp addr hi lo rest)).trace,
      d = [5, 0, 0, 1, 0, 0, 0, 0, 0, 0]) ∧
    (env.writeResult 0 [5, 0] = (2, false) →
      callbackReplies (handleConn env (validInput n ms atyp addr hi lo rest)).trace
        = List.replicate (env.forwarder (str "tcp") (target atyp addr hi lo) rest).1
            [5, 0, 0, 1, 0, 0, 0, 0, 0, 0] ∧
      ((env.forwarder (str "tcp") (target atyp addr hi lo) rest).2 = false →
        (handleConn env (validInput n ms atyp addr hi lo rest)).result = .ok ∧
        written (handleConn env (validInput n ms atyp addr hi lo rest)).trace
          = [5, 0] :: List.replicate (env.forwarder (str "tcp") (target atyp addr hi lo) rest).1
              [5, 0, 0, 1, 0, 0, 0, 0, 0, 0])) := by
  have hcb : env.writeResult 0 [5, 0] = (2, false) →
      callbackReplies (handleConn env (validInput n ms atyp addr hi lo rest)).trace
        = List.replicate (env.forwarder (str "tcp") (target atyp addr hi lo) rest).1
            [5, 0, 0, 1, 0, 0, 0, 0, 0, 0] := by
    intro hw
    rw [handleConn_valid_trace env n ms atyp addr hi lo rest hlen h0 hw hv]
    simp only [callbackReplies_append, callbackReplies_requestTrace,
      callbackReplies_forwardTail, List.nil_append]
  refine ⟨?_, fun hw => ⟨hcb hw, fun hok => ?_⟩⟩
  · by_cases hw : env.writeResult 0 [5, 0] = (2, false)
    · rw [hcb hw]
      exact fun d hd => (List.mem_replicate.mp hd).2
    · unfold validInput
      rw [handleConn_hello_failed env n ms _ hlen h0 hw]
      simp [callbackReplies]
  · rw [handleConn_valid_trace env n ms atyp addr hi lo rest hlen h0 hw hv]
    refine ⟨by simp [forwardResult, hok], ?_⟩
    simp only [written_append, written_requestTrace, written_forwardTail, hok]
    simp

/-- Instance of C11: a forwarder that invokes the callback once and succeeds, on a
domain-name request. -/
theorem callback_writes_success_reply_witness :
    (∀ d ∈ callbackReplies (handleConn (envOk fwdConnects)
        (validInput 1 [0] 3 (1 :: [97]) 0 80 [])).trace,
      d = [5, 0, 0, 1, 0, 0, 0, 0, 0, 0]) ∧
    callbackReplies (handleConn (envOk fwdConnects)
        (validInput 1 [0] 3 (1 :: [97]) 0 80 [])).trace
      = [[5, 0, 0, 1, 0, 0, 0, 0, 0, 0]] ∧
    (handleConn (envOk fwdConnects) (validInput 1 [0] 3 (1 :: [97]) 0 80 [])).result = .ok ∧
    written (handleConn (envOk fwdConnects) (validInput 1 [0] 3 (1 :: [97]) 0 80 [])).trace
      = [[5, 0], [5, 0, 0, 1, 0, 0, 0, 0, 0, 0]] :=
  have h := callback_writes_success_reply (envOk fwdConnects) 1 [0] 3 (1 :: [97]) 0 80 []
    rfl (by decide) (Or.inr (Or.inl ⟨rfl, 1, [97], rfl, rfl⟩))
  ⟨h.1, (h.2 rfl).1, ((h.2 rfl).2 rfl).1, ((h.2 rfl).2 rfl).2⟩

/-! ## Bytes consumed before the forwarder is called -/

theorem reads_requestTrace (n : Byte) (ms : List Byte) (atyp : Byte) (addr : List Byte)
    (hi lo : Byte) :
    reads (requestTrace n ms atyp addr hi lo)
      = [(2, [5, n]), (n.val, ms), (4, [5, 1, 0, atyp])]
        ++ (if atyp = 3 then [(1, addr.take 1), (addr.length - 1, addr.drop 1)]
            else [(addr.length, addr)])
        ++ [(2, [hi, lo])] := by
  unfold requestTrace helloTrace
  simp only [reads_append, reads_addrReads]
  rfl

theorem consumed_requestTrace (n : Byte) (ms : List Byte) (atyp : Byte) (addr : List Byte)
    (hi lo : Byte) :
    consumed (requestTrace n ms atyp addr hi lo)
      = 5 :: n :: ms ++ (5 :: 1 :: 0 :: atyp :: (addr ++ [hi, lo])) := by
  unfold consumed
  rw [reads_requestTrace]
  split
  · have h : List.take 1 addr ++ List.drop 1 addr = addr := List.take_append_drop 1 addr
    simp only [List.flatMap_append, List.flatMap_cons, List.flatMap_nil, List.append_nil,
      List.cons_append, List.nil_append, List.append_assoc]
    rw [← List.append_assoc (List.take 1 addr), h]
  · simp

/-- C15: for every fully valid handshake, when `handleConn` calls the forwarder it
has taken from the client stream exactly the bytes of the greeting and of the
request, `2 + N + 4 + A + 2` of them, where `A` is 4 for address type 1, `1 + L`
for address type 3 with length byte `L`, and 16 for address type 4; everything the
client sent after the port is still unread in the stream handed to the forwarder,
and nothing is read after the call. -/
theorem bytes_consumed_at_forward (env : Env) (n : Byte) (ms : List Byte) (atyp : Byte)
    (addr : List Byte) (hi lo : Byte) (rest : List Byte)
    (hlen : ms.length = n.val) (h0 : (0 : Byte) ∈ ms)
    (hw : env.writeResult 0 [5, 0] = (2, false)) (hv : ValidAddr atyp addr) :
    (handleConn env (validInput n ms atyp addr hi lo rest)).trace
      = requestTrace n ms atyp addr hi lo
        ++ .forward (str "tcp") (target atyp addr hi lo) rest
          :: (forwardTail env (target atyp addr hi lo) rest).tail ∧
    validInput n ms atyp addr hi lo rest = consumed (requestTrace n ms atyp addr hi lo) ++ rest ∧
    (consumed (requestTrace n ms atyp addr hi lo)).length = 2 + n.val + 4 + addr.length + 2 ∧
    addr.length = (if atyp = 1 then 4 else if atyp = 3 then 1 + (addr.headD 0).val else 16) ∧
    consumed (handleConn env (validInput n ms atyp addr hi lo rest)).trace
      = consumed (requestTrace n ms atyp addr hi lo) := by
  refine ⟨?_, ?_, ?_, ?_, ?_⟩
  · rw [handleConn_valid_trace env n ms atyp addr hi lo rest hlen h0 hw hv]
    rfl
  · rw [consumed_requestTrace]
    simp [validInput]
  · rw [consumed_requestTrace]
    simp [hlen]
    omega
  · rcases hv with ⟨rfl, ha⟩ | ⟨rfl, l, payload, rfl, hp⟩ | ⟨rfl, ha⟩
    · simp [ha]
    · simp [hp, show ¬ ((3 : Byte) = 1) by decide]
      omega
    · simp [ha, show ¬ ((4 : Byte) = 1) by decide, show ¬ ((4 : Byte) = 3) by decide]
  · rw [handleConn_valid_trace env n ms atyp addr hi lo rest hlen h0 hw hv]
    simp [consumed, reads_append, reads_forwardTail]

/-- Instance of C15: greeting `[5, 1, 0]`, a domain-name request of length 1, and
three more bytes from the client, all of which stay unread. -/
theorem bytes_consumed_at_forward_witness :
    forwardCalls (handleConn (envOk fwdConnects)
        (validInput 1 [0] 3 (1 :: [97]) 0 80 [7, 8, 9])).trace
      = [(str "tcp", str "a:80", [7, 8, 9])] ∧
    (consumed (requestTrace 1 [0] 3 (1 :: [97]) 0 80)).length = 2 + 1 + 4 + (1 + 1) + 2 :=
  have h := bytes_consumed_at_forward (envOk fwdConnects) 1 [0] 3 (1 :: [97]) 0 80 [7, 8, 9]
    rfl (by decide) rfl (Or.inr (Or.inl ⟨rfl, 1, [97], rfl, rfl⟩))
  ⟨by rw [h.1]; decide, h.2.2.1⟩

/-! ## Failing writes -/

theorem forwardRun_result (env : Env) (tr : List Event) (address unread : List Byte)
    (nw : Nat) :
    (forwardRun env tr address unread nw).result = forwardResult env address unread := by
  unfold forwardRun forwardResult
  simp only
  split <;> rfl

theorem sessionPort_result_congr (env env' : Env) (tr tr' : List Event) (nw nw' : Nat)
    (host input : List Byte) (hf : env.forwarder = env'.forwarder) :
    (sessionPort env tr nw host input).result
      = (sessionPort env' tr' nw' host input).result := by
  rcases input with _ | ⟨hi, _ | ⟨lo, rest⟩⟩
  · rfl
  · rfl
  · simp only [sessionPort, forwardRun_result, forwardResult, hf]

theorem sessionAddress_result_congr (env env' : Env) (tr tr' : List Event) (nw nw' : Nat)
    (atyp : Byte) (input : List Byte) (hf : env.forwarder = env'.forwarder) :
    (sessionAddress env tr nw atyp input).result
      = (sessionAddress env' tr' nw' atyp input).result := by
  unfold sessionAddress
  split
  · split
    · exact sessionPort_result_congr env env' _ _ _ _ _ _ hf
    · rfl
  · split
    · split
      · rfl
      · split
        · exact sessionPort_result_congr env env' _ _ _ _ _ _ hf
        · rfl
    · split
      · split
        · exact sessionPort_result_congr env env' _ _ _ _ _ _ hf
        · rfl
      · rfl

theorem sessionRequest_result_congr (env env' : Env) (tr tr' : List Event) (nw nw' : Nat)
    (input : List Byte) (hf : env.forwarder = env'.forwarder) :
    (sessionRequest env tr nw input).result
      = (sessionRequest env' tr' nw' input).result := by
  unfold sessionRequest
  split
  · split
    · rfl
    · exact sessionAddress_result_congr env env' _ _ _ _ _ _ hf
  · rfl

theorem session_result_congr (env env' : Env) (input : List Byte)
    (hf : env.forwarder = env'.forwarder)
    (hw : ∀ k d, d.length ≠ 10 → env.writeResult k d = env'.writeResult k d) :
    (session env input).result = (session env' input).result := by
  unfold session
  split
  · rename_i b0 b1 rest
    have h2 : env.writeResult 0 [5, selected (rest.take b1.val)]
        = env'.writeResult 0 [5, selected (rest.take b1.val)] := hw 0 _ (by simp)
    rw [h2]
    split
    · rfl
    · split
      · split
        · rfl
        · split
          · rfl
          · exact sessionRequest_result_congr env env' _ _ _ _ _ hf
      · rfl
  · rfl

/-- The result of the request stage is the error of the reply it wrote, and after
a forwarder call it is decided by the forwarder's return value. -/
theorem ReqOutcome.req_result_of_written {env : Env} {input : List Byte} {tail : List Event}
    {res : Result} (h : ReqOutcome env input tail res) :
    ([5, 7, 0, 1, 0, 0, 0, 0, 0, 0] ∈ written tail → res = .error .invalidRequest) ∧
    ([5, 4, 0, 1, 0, 0, 0, 0, 0, 0] ∈ written tail → res = .error .hostUnreachable) ∧
    (∀ c ∈ forwardCalls tail,
      res = if (env.forwarder c.1 c.2.1 c.2.2).2 = true then .error .hostUnreachable
        else .ok) := by
  cases h with
  | forwarded atyp addr hi lo rest hv =>
    simp only [written_append, written_addrReads, written_forwardTail,
      forwardCalls_append, forwardCalls_addrReads, forwardCalls_forwardTail]
    refine ⟨?_, ?_, ?_⟩
    · intro hm
      simp only [written, List.nil_append, List.mem_append, List.mem_replicate] at hm
      rcases hm with ⟨-, hm⟩ | hm
      · exact absurd hm (by decide)
      · split at hm
        · simp at hm
        · simp at hm
    · intro hm
      simp only [written, List.nil_append, List.mem_append, List.mem_replicate] at hm
      rcases hm with ⟨-, hm⟩ | hm
      · exact absurd hm (by decide)
      · split at hm
        · rename_i he
          simp [forwardResult, he]
        · simp at hm
    · intro c hc
      simp only [forwardCalls, List.nil_append, List.mem_singleton] at hc
      subst hc
      rfl
  | shortPort atyp addr rest hv h =>
    simp [written_append, written_addrReads, written, forwardCalls_append,
      forwardCalls_addrReads, forwardCalls]
  | _ => simp [written, forwardCalls]

theorem Outcome.result_of_written {env : Env} {input : List Byte} {run : Run}
    (h : Outcome env input run) :
    ([5, 7, 0, 1, 0, 0, 0, 0, 0, 0] ∈ written run.trace → run.result = .error .invalidRequest) ∧
    ([5, 4, 0, 1, 0, 0, 0, 0, 0, 0] ∈ written run.trace
      → run.result = .error .hostUnreachable) ∧
    (∀ c ∈ forwardCalls run.trace,
      run.result = if (env.forwarder c.1 c.2.1 c.2.2).2 = true then .error .hostUnreachable
        else .ok) := by
  cases h with
  | request n ms rest tail res hlen hw h0 hr =>
    have h := hr.req_result_of_written
    simp only [written_append, forwardCalls_append]
    have hw1 : written (helloTrace n ms) = [[5, 0]] := rfl
    have hf1 : forwardCalls (helloTrace n ms) = [] := rfl
    rw [hw1, hf1]
    refine ⟨fun hm => h.1 ?_, fun hm => h.2.1 ?_, fun c hc => h.2.2 c (by simpa using hc)⟩
    · simpa using hm
    · simpa using hm
  | _ => simp [written, forwardCalls]

/-- C17: if the write of the 2-byte method reply returns an error or a count other
than 2, `handleConn` returns an error at once: it does not read the request and
does not call the forwarder.  The results of the writes of 10-byte replies have no
influence on what `handleConn` returns: two environments that differ only in
those results give the same result on every input; the result is the
invalid-request error whenever a status-7 reply is written, the unreachable error
whenever a status-4 reply is written, and after a forwarder call it is decided by
the forwarder's return value alone. -/
theorem write_failures_and_result (env env' : Env) (input : List Byte) (n : Byte)
    (ms rest : List Byte) (hlen : ms.length = n.val) :
    ((env.writeResult 0 [5, selected ms]).1 ≠ 2
        ∨ (env.writeResult 0 [5, selected ms]).2 = true →
      (handleConn env (5 :: n :: ms ++ rest)).result = .error .shortHello ∧
      reads (handleConn env (5 :: n :: ms ++ rest)).trace = [(2, [5, n]), (n.val, ms)] ∧
      forwardCalls (handleConn env (5 :: n :: ms ++ rest)).trace = []) ∧
    (env.forwarder = env'.forwarder →
      (∀ k d, d.length ≠ 10 → env.writeResult k d = env'.writeResult k d) →
      (handleConn env input).result = (handleConn env' input).result) ∧
    ([5, 7, 0, 1, 0, 0, 0, 0, 0, 0] ∈ written (handleConn env input).trace →
      (handleConn env input).result = .error .invalidRequest) ∧
    ([5, 4, 0, 1, 0, 0, 0, 0, 0, 0] ∈ written (handleConn env input).trace →
      (handleConn env input).result = .error .hostUnreachable) ∧
    (∀ c ∈ forwardCalls (handleConn env input).trace,
      (handleConn env input).result
        = if (env.forwarder c.1 c.2.1 c.2.2).2 = true then .error .hostUnreachable
          else .ok) := by
  refine ⟨fun hw => ?_, fun hf hw => ?_, (handleConn_outcome env input).result_of_written⟩
  · rw [handleConn_hello env n ms rest hlen]
    simp [hw, reads, forwardCalls]
  · rw [handleConn_eq_session, handleConn_eq_session]
    exact session_result_congr env env' input hf hw

/-- Instance of C17: with every write failing, the greeting `[5, 1, 0]` ends in an
error before the request is read; and with only the 10-byte writes failing, a
BIND request and a request whose forwarder fails end as they do when the writes
succeed. -/
theorem write_failures_and_result_witness :
    ((handleConn (envWritesFail fwdConnects) (5 :: 1 :: [0] ++ [5, 1, 0, 1])).result
        = .error .shortHello ∧
      reads (handleConn (envWritesFail fwdConnects) (5 :: 1 :: [0] ++ [5, 1, 0, 1])).trace
        = [(2, [5, 1]), ((1 : Byte).val, [0])] ∧
      forwardCalls (handleConn (envWritesFail fwdConnects)
        (5 :: 1 :: [0] ++ [5, 1, 0, 1])).trace = []) ∧
    (handleConn (envRepliesFail fwdFails) [5, 1, 0, 5, 2, 0, 1]).result
      = (handleConn (envOk fwdFails) [5, 1, 0, 5, 2, 0, 1]).result ∧
    (handleConn (envRepliesFail fwdFails) [5, 1, 0, 5, 1, 0, 1, 10, 0, 0, 1, 0, 80]).result
      = (handleConn (envOk fwdFails) [5, 1, 0, 5, 1, 0, 1, 10, 0, 0, 1, 0, 80]).result :=
  ⟨(write_failures_and_result (envWritesFail fwdConnects) (envWritesFail fwdConnects) []
      1 [0] [5, 1, 0, 1] rfl).1 (Or.inl (by decide)),
    (write_failures_and_result (envRepliesFail fwdFails) (envOk fwdFails)
      [5, 1, 0, 5, 2, 0, 1] 0 [] [] rfl).2.1 rfl
      (fun k d hd => by simp [envRepliesFail, envOk, hd]),
    (write_failures_and_result (envRepliesFail fwdFails) (envOk fwdFails)
      [5, 1, 0, 5, 1, 0, 1, 10, 0, 0, 1, 0, 80] 0 [] [] rfl).2.1 rfl
      (fun k d hd => by simp [envRepliesFail, envOk, hd])⟩

/-- With the 10-byte writes failing, the BIND request still ends in the
invalid-request error and the failed forward in the unreachable error. -/
theorem failed_reply_writes_examples :
    (handleConn (envRepliesFail fwdFails) [5, 1, 0, 5, 2, 0, 1])
      = ⟨[.read 2 [5, 1], .read 1 [0], .write [5, 0] 2 false, .read 4 [5, 2, 0, 1],
          .write [5, 7, 0, 1, 0, 0, 0, 0, 0, 0] 0 true], .error .invalidRequest⟩ ∧
    (handleConn (envRepliesFail fwdFails) [5, 1, 0, 5, 1, 0, 1, 10, 0, 0, 1, 0, 80]).result
      = .error .hostUnreachable := by
  decide

/-! ## Short reads -/

theorem noShort_nil : NoShort [] := by
  intro e he; cases he

theorem noShort_cons {e : Event} {l : List Event} :
    NoShort (e :: l) ↔ ¬ IsShort e ∧ NoShort l := by
  simp [NoShort]

theorem noShort_append {l₁ l₂ : List Event} :
    NoShort (l₁ ++ l₂) ↔ NoShort l₁ ∧ NoShort l₂ := by
  simp only [NoShort, List.mem_append]
  constructor
  · intro h
    exact ⟨fun e he => h e (Or.inl he), fun e he => h e (Or.inr he)⟩
  · rintro ⟨h1, h2⟩ e (he | he)
    · exact h1 e he
    · exact h2 e he

theorem noShort_cbEvents (env : Env) (resp : List Byte) (nw k : Nat) :
    NoShort (cbEvents env resp nw k) := by
  induction k generalizing nw with
  | zero => exact noShort_nil
  | succ k ih =>
    simp only [cbEvents]
    exact noShort_cons.mpr ⟨by simp [IsShort], ih _⟩

theorem noShort_forwardTail (env : Env) (address unread : List Byte) :
    NoShort (forwardTail env address unread) := by
  unfold forwardTail
  refine noShort_cons.mpr ⟨by simp [IsShort], noShort_append.mpr ⟨noShort_cbEvents _ _ _ _, ?_⟩⟩
  split
  · exact noShort_cons.mpr ⟨by simp [IsShort], noShort_nil⟩
  · exact noShort_nil

theorem noShort_addrReads (atyp : Byte) (addr : List Byte) (hv : ValidAddr atyp addr) :
    NoShort (addrReads atyp addr) := by
  unfold addrReads
  rcases hv with ⟨rfl, ha⟩ | ⟨rfl, l, payload, rfl, hp⟩ | ⟨rfl, ha⟩
  · simp [NoShort, IsShort]
  · simp [NoShort, IsShort]
  · simp [NoShort, IsShort]

theorem noShort_helloTrace (n : Byte) (ms : List Byte) (hlen : ms.length = n.val) :
    NoShort (helloTrace n ms) := by
  simp [NoShort, helloTrace, IsShort, hlen]

/-- Once there is no short read before it, a short read that is the last event is
the only one, and nothing follows it. -/
theorem nothing_after_short {pre' pre post : List Event} {e' e : Event}
    (h : pre' ++ [e'] = pre ++ e :: post) (hn : NoShort pre') (he : IsShort e) :
    post = [] := by
  rcases List.eq_nil_or_concat post with rfl | ⟨q, x, rfl⟩
  · rfl
  · exfalso
    have h2 : pre' ++ [e'] = (pre ++ e :: q) ++ [x] := by
      rw [h]; simp
    have h3 := (List.append_inj' h2 rfl).1
    exact hn e (by rw [h3]; simp) he

theorem tidy_of_short (pre : List Event) (k : Nat) (got : List Byte) (e : Err)
    (hs : got.length < k) (hn : NoShort pre) (hf : forwardCalls pre = [])
    (he : IsReadError e) : Tidy (pre ++ [.read k got]) (.error e) :=
  Or.inr ⟨pre, k, got, rfl, hs, hn, by simp [forwardCalls_append, hf, forwardCalls],
    e, rfl, he⟩

theorem Outcome.tidy {env : Env} {input : List Byte} {run : Run}
    (h : Outcome env input run) : Tidy run.trace run.result := by
  cases h with
  | shortFirstMsg input h =>
    exact tidy_of_short [] 2 input _ h noShort_nil rfl (by simp [IsReadError])
  | wrongFirstByte b0 b1 rest h =>
    exact Or.inl (by simp [NoShort, IsShort])
  | shortAuthMethods n rest h =>
    exact tidy_of_short [.read 2 [5, n]] n.val rest _ h (by simp [NoShort, IsShort]) rfl
      (by simp [IsReadError])
  | shortHello n ms rest hlen hw =>
    exact Or.inl (by simp [NoShort, IsShort, hlen])
  | authNotFound n ms rest hlen hw h0 =>
    exact Or.inl (by simp [NoShort, IsShort, hlen])
  | request n ms rest tail res hlen hw h0 hr =>
    have hh := noShort_helloTrace n ms hlen
    have hf : forwardCalls (helloTrace n ms) = [] := rfl
    cases hr with
    | shortRequest _ h =>
      exact tidy_of_short _ 4 rest .shortRequest h hh hf (by simp [IsReadError])
    | badHeader v c r a rest h =>
      exact Or.inl (noShort_append.mpr ⟨hh, by simp [NoShort, IsShort]⟩)
    | badAtyp a rest h1 h3 h4 =>
      exact Or.inl (noShort_append.mpr ⟨hh, by simp [NoShort, IsShort]⟩)
    | shortIPv4 rest h =>
      have := tidy_of_short (helloTrace n ms ++ [.read 4 [5, 1, 0, 1]]) 4 rest .shortIPv4 h
        (noShort_append.mpr ⟨hh, by simp [NoShort, IsShort]⟩)
        (by simp [forwardCalls_append, hf, forwardCalls]) (by simp [IsReadError])
      simpa using this
    | shortHostnameLen =>
      have := tidy_of_short (helloTrace n ms ++ [.read 4 [5, 1, 0, 3]]) 1 []
        .shortHostnameLen (by simp)
        (noShort_append.mpr ⟨hh, by simp [NoShort, IsShort]⟩)
        (by simp [forwardCalls_append, hf, forwardCalls]) (by simp [IsReadError])
      simpa using this
    | shortHostname l r h =>
      have := tidy_of_short (helloTrace n ms ++ [.read 4 [5, 1, 0, 3], .read 1 [l]]) l.val r
        .shortHostname h
        (noShort_append.mpr ⟨hh, by simp [NoShort, IsShort]⟩)
        (by simp [forwardCalls_append, hf, forwardCalls]) (by simp [IsReadError])
      simpa using this
    | shortIPv6 rest h =>
      have := tidy_of_short (helloTrace n ms ++ [.read 4 [5, 1, 0, 4]]) 16 rest .shortIPv6 h
        (noShort_append.mpr ⟨hh, by simp [NoShort, IsShort]⟩)
        (by simp [forwardCalls_append, hf, forwardCalls]) (by simp [IsReadError])
      simpa using this
    | shortPort atyp addr rest hv h =>
      have := tidy_of_short
        (helloTrace n ms ++ ([.read 4 [5, 1, 0, atyp]] ++ addrReads atyp addr)) 2 rest
        .shortPort h
        (noShort_append.mpr ⟨hh, noShort_append.mpr
          ⟨by simp [NoShort, IsShort], noShort_addrReads atyp addr hv⟩⟩)
        (by simp [forwardCalls_append, hf, forwardCalls, forwardCalls_addrReads])
        (by simp [IsReadError])
      simpa using this
    | forwarded atyp addr hi lo rest hv =>
      exact Or.inl (noShort_append.mpr ⟨hh, noShort_append.mpr ⟨noShort_append.mpr
        ⟨noShort_append.mpr ⟨by simp [NoShort, IsShort], noShort_addrReads atyp addr hv⟩,
          by simp [NoShort, IsShort]⟩, noShort_forwardTail _ _ _⟩⟩)

/-- C12: whenever a read step of `handleConn` receives fewer bytes than it asked
for, because the stream ended or failed, that read is the last action of the
call: nothing is read or written after it, the forwarder is not called in the
session, and `handleConn` returns one of its read errors. -/
theorem short_read_is_fatal (env : Env) (input : List Byte) (pre post : List Event)
    (k : Nat) (got : List Byte)
    (ht : (handleConn env input).trace = pre ++ .read k got :: post)
    (hs : got.length < k) :
    post = [] ∧
    (∃ e, (handleConn env input).result = .error e ∧ IsReadError e) ∧
    forwardCalls (handleConn env input).trace = [] := by
  rcases (handleConn_outcome env input).tidy with hn | ⟨pre', k', got', ht', -, hn, hf, he⟩
  · exact absurd (show IsShort (.read k got) from hs) (hn _ (by rw [ht]; simp))
  · exact ⟨nothing_after_short (ht'.symm.trans ht) hn
      (show IsShort (.read k got) from hs), he, hf⟩

/-- Instance of C12: an IPv4 request cut off after two of its four address
bytes. -/
theorem short_read_is_fatal_witness :
    (∃ e, (handleConn (envOk fwdConnects) [5, 1, 0, 5, 1, 0, 1, 93, 184]).result = .error e
      ∧ IsReadError e) ∧
    forwardCalls (handleConn (envOk fwdConnects) [5, 1, 0, 5, 1, 0, 1, 93, 184]).trace = [] :=
  (short_read_is_fatal (envOk fwdConnects) [5, 1, 0, 5, 1, 0, 1, 93, 184]
    [.read 2 [5, 1], .read 1 [0], .write [5, 0] 2 false, .read 4 [5, 1, 0, 1]] []
    4 [93, 184] (by decide) (by decide)).2

/-! ## When the forwarder is called -/

theorem length_reads_requestTrace (n : Byte) (ms : List Byte) (atyp : Byte)
    (addr : List Byte) (hi lo : Byte) :
    (reads (requestTrace n ms atyp addr hi lo)).length = if atyp = 3 then 6 else 5 := by
  rw [reads_requestTrace]
  split <;> simp

theorem getLast_reads_requestTrace (n : Byte) (ms : List Byte) (atyp : Byte)
    (addr : List Byte) (hi lo : Byte) :
    (reads (requestTrace n ms atyp addr hi lo)).getLast? = some (2, [hi, lo]) := by
  rw [reads_requestTrace, List.getLast?_append]
  rfl

theorem header_reads_requestTrace (n : Byte) (ms : List Byte) (atyp : Byte)
    (addr : List Byte) (hi lo : Byte) :
    (reads (requestTrace n ms atyp addr hi lo))[2]? = some (4, [5, 1, 0, atyp]) := by
  rw [reads_requestTrace]
  simp

theorem reads_requestTrace_inj {n n' : Byte} {ms ms' : List Byte} {atyp atyp' : Byte}
    {addr addr' : List Byte} {hi lo hi' lo' : Byte}
    (h : reads (requestTrace n ms atyp addr hi lo)
      = reads (requestTrace n' ms' atyp' addr' hi' lo')) :
    n = n' ∧ ms = ms' ∧ atyp = atyp' ∧ addr = addr' ∧ hi = hi' ∧ lo = lo' := by
  have hh := header_reads_requestTrace n ms atyp addr hi lo
  rw [h, header_reads_requestTrace] at hh
  have ha : atyp' = atyp := by simpa using hh
  subst ha
  rw [reads_requestTrace, reads_requestTrace] at h
  by_cases h3 : atyp' = 3
  · simp only [h3, if_true, List.cons_append, List.nil_append, List.cons.injEq, Prod.mk.injEq,
      and_true, true_and] at h
    obtain ⟨hn, ⟨-, hms⟩, ht, ⟨-, hd⟩, hhi, hlo⟩ := h
    refine ⟨hn, hms, rfl, ?_, hhi, hlo⟩
    rw [← List.take_append_drop 1 addr, ← List.take_append_drop 1 addr', ht, hd]
  · simp only [h3, if_false, List.cons_append, List.nil_append, List.cons.injEq,
      Prod.mk.injEq, and_true, true_and] at h
    obtain ⟨hn, ⟨-, hms⟩, ⟨-, had⟩, hhi, hlo⟩ := h
    exact ⟨hn, hms, rfl, had, hhi, hlo⟩

theorem not_validReads_of_length {tr : List Event} (h : (reads tr).length ≤ 4)
    (n : Byte) (ms : List Byte) (atyp : Byte) (addr : List Byte) (hi lo : Byte) :
    ¬ ValidReads tr n ms atyp addr hi lo := by
  rintro ⟨-, -, -, hr⟩
  rw [hr, length_reads_requestTrace] at h
  split at h <;> omega

theorem not_validReads_of_last {tr : List Event} (k : Nat) (got : List Byte)
    (h : (reads tr).getLast? = some (k, got)) (hs : got.length < 2)
    (n : Byte) (ms : List Byte) (atyp : Byte) (addr : List Byte) (hi lo : Byte) :
    ¬ ValidReads tr n ms atyp addr hi lo := by
  rintro ⟨-, -, -, hr⟩
  rw [hr, getLast_reads_requestTrace] at h
  simp only [Option.some.injEq, Prod.mk.injEq] at h
  rw [← h.2] at hs
  simp at hs

theorem reads_helloTrace (n : Byte) (ms : List Byte) :
    reads (helloTrace n ms) = [(2, [5, n]), (n.val, ms)] := rfl

/-- In the request stage the forwarder is called in the `forwarded` outcome alone,
and no other outcome has the reads of a valid request. -/
theorem ReqOutcome.req_forward_cases {env : Env} {rest : List Byte} {tail : List Event}
    {res : Result} (n : Byte) (ms : List Byte) (h : ReqOutcome env rest tail res) :
    (forwardCalls tail = [] ∧
        ∀ n' ms' atyp addr hi lo,
          ¬ ValidReads (helloTrace n ms ++ tail) n' ms' atyp addr hi lo) ∨
      ∃ atyp addr hi lo unread, ValidAddr atyp addr ∧
        rest = 5 :: 1 :: 0 :: atyp :: (addr ++ hi :: lo :: unread) ∧
        helloTrace n ms ++ tail
          = requestTrace n ms atyp addr hi lo ++ forwardTail env (target atyp addr hi lo) unread ∧
        forwardCalls tail = [(str "tcp", target atyp addr hi lo, unread)] := by
  cases h with
  | forwarded atyp addr hi lo unread hv =>
    refine Or.inr ⟨atyp, addr, hi, lo, unread, hv, rfl, by simp [requestTrace], ?_⟩
    simp only [forwardCalls_append, forwardCalls_addrReads, forwardCalls_forwardTail]
    rfl
  | shortPort atyp addr rest' hv h =>
    refine Or.inl ⟨by simp [forwardCalls_append, forwardCalls_addrReads, forwardCalls], ?_⟩
    intro n' ms' atyp' addr' hi lo
    refine not_validReads_of_last 2 rest' ?_ h n' ms' atyp' addr' hi lo
    simp only [reads_append, List.getLast?_append]
    rfl
  | shortHostname l r h =>
    refine Or.inl ⟨rfl, ?_⟩
    rintro n' ms' atyp' addr' hi lo ⟨-, -, -, hr⟩
    have hl := congrArg List.length hr
    have hh := congrArg (fun x => x[2]?) hr
    simp only [header_reads_requestTrace] at hh
    rw [length_reads_requestTrace] at hl
    simp [reads_append, reads_helloTrace, reads] at hl hh
    subst hh
    simp at hl
  | _ =>
    exact Or.inl ⟨rfl, fun n' ms' atyp addr hi lo =>
      not_validReads_of_length (by simp [reads_append, reads_helloTrace, reads]) _ _ _ _ _ _⟩

/-- Every run either has no forwarder call and not the reads of a valid request,
or is the run of a valid session and has exactly one call. -/
theorem Outcome.forward_cases {env : Env} {input : List Byte} {run : Run}
    (h : Outcome env input run) :
    (forwardCalls run.trace = [] ∧
        ∀ n ms atyp addr hi lo, ¬ ValidReads run.trace n ms atyp addr hi lo) ∨
      ∃ n ms atyp addr hi lo rest,
        ms.length = n.val ∧ (0 : Byte) ∈ ms ∧ env.writeResult 0 [5, 0] = (2, false)
          ∧ ValidAddr atyp addr ∧ input = validInput n ms atyp addr hi lo rest
          ∧ reads run.trace = reads (requestTrace n ms atyp addr hi lo)
          ∧ forwardCalls run.trace = [(str "tcp", target atyp addr hi lo, rest)] := by
  cases h with
  | request n ms rest tail res hlen hw h0 hr =>
    rcases hr.req_forward_cases n ms with ⟨hf, hnv⟩ | ⟨atyp, addr, hi, lo, unread, hv, rfl, ht, hf⟩
    · exact Or.inl ⟨by simp [forwardCalls_append, hf, helloTrace, forwardCalls], hnv⟩
    · refine Or.inr ⟨n, ms, atyp, addr, hi, lo, unread, hlen, h0, hw, hv, rfl, ?_, ?_⟩
      · simp only [ht, reads_append, reads_forwardTail, List.append_nil]
      · simp only [forwardCalls_append, hf]
        rfl
  | shortFirstMsg input h =>
    exact Or.inl ⟨rfl, fun _ _ _ _ _ _ => not_validReads_of_length (by simp [reads]) _ _ _ _ _ _⟩
  | wrongFirstByte b0 b1 rest h =>
    exact Or.inl ⟨rfl, fun _ _ _ _ _ _ => not_validReads_of_length (by simp [reads]) _ _ _ _ _ _⟩
  | shortAuthMethods n rest h =>
    exact Or.inl ⟨rfl, fun _ _ _ _ _ _ => not_validReads_of_length (by simp [reads]) _ _ _ _ _ _⟩
  | shortHello n ms rest hlen hw =>
    exact Or.inl ⟨rfl, fun _ _ _ _ _ _ => not_validReads_of_length (by simp [reads]) _ _ _ _ _ _⟩
  | authNotFound n ms rest hlen hw h0 =>
    exact Or.inl ⟨rfl, fun _ _ _ _ _ _ => not_validReads_of_length (by simp [reads]) _ _ _ _ _ _⟩

/-- C14: on every input `handleConn` calls the forwarder at most once, and it calls
it exactly when the greeting read has version 5 and offers method 0, the request
header read is `[5, 1, 0, atyp]` with `atyp` in `{1, 3, 4}`, and the address and
the port were read in full; which is the case exactly when the input starts with
such a greeting and request and the method reply was written.  In that call the
network kind is `tcp` and the address is the rendered `host:port` string of the
request. -/
theorem forwarder_called_iff_valid (env : Env) (input : List Byte) :
    (forwardCalls (handleConn env input).trace).length ≤ 1 ∧
    (forwardCalls (handleConn env input).trace ≠ [] ↔
      ∃ n ms atyp addr hi lo, ValidReads (handleConn env input).trace n ms atyp addr hi lo) ∧
    (forwardCalls (handleConn env input).trace ≠ [] ↔
      env.writeResult 0 [5, 0] = (2, false) ∧
        ∃ n ms atyp addr hi lo rest, ms.length = n.val ∧ (0 : Byte) ∈ ms
          ∧ ValidAddr atyp addr ∧ input = validInput n ms atyp addr hi lo rest) ∧
    (∀ n ms atyp addr hi lo, ValidReads (handleConn env input).trace n ms atyp addr hi lo →
      ∃ unread, forwardCalls (handleConn env input).trace
        = [(str "tcp", target atyp addr hi lo, unread)]) := by
  rcases (handleConn_outcome env input).forward_cases with
    ⟨hf, hnv⟩ | ⟨n, ms, atyp, addr, hi, lo, rest, hlen, h0, hw, hv, hin, hr, hf⟩
  · refine ⟨by simp [hf], ?_, ?_, ?_⟩
    · constructor
      · intro h; exact absurd hf h
      · rintro ⟨n, ms, atyp, addr, hi, lo, hv⟩
        exact absurd hv (hnv n ms atyp addr hi lo)
    · constructor
      · intro h; exact absurd hf h
      · rintro ⟨hw, n, ms, atyp, addr, hi, lo, rest, hlen, h0, hv, rfl⟩
        rw [forwardCalls_valid env n ms atyp addr hi lo rest hlen h0 hv, if_pos hw] at hf
        cases hf
    · intro n ms atyp addr hi lo hv
      exact absurd hv (hnv n ms atyp addr hi lo)
  · refine ⟨by simp [hf], ?_, ?_, ?_⟩
    · exact ⟨fun _ => ⟨n, ms, atyp, addr, hi, lo, hlen, h0, hv, hr⟩, fun _ => by simp [hf]⟩
    · exact ⟨fun _ => ⟨hw, n, ms, atyp, addr, hi, lo, rest, hlen, h0, hv, hin⟩,
        fun _ => by simp [hf]⟩
    · rintro n' ms' atyp' addr' hi' lo' ⟨-, -, -, hr'⟩
      obtain ⟨-, -, rfl, rfl, rfl, rfl⟩ := reads_requestTrace_inj (hr.symm.trans hr')
      exact ⟨rest, hf⟩

/-- Instance of C14: an IPv4 request to `10.0.0.1:80` after the greeting
`[5, 1, 0]`; the forwarder is called once, with that address. -/
theorem forwarder_called_iff_valid_witness :
    (forwardCalls (handleConn (envOk fwdConnects)
        (validInput 1 [0] 1 [10, 0, 0, 1] 0 80 [])).trace).length ≤ 1 ∧
    forwardCalls (handleConn (envOk fwdConnects)
        (validInput 1 [0] 1 [10, 0, 0, 1] 0 80 [])).trace ≠ [] ∧
    ∃ unread, forwardCalls (handleConn (envOk fwdConnects)
        (validInput 1 [0] 1 [10, 0, 0, 1] 0 80 [])).trace
      = [(str "tcp", target 1 [10, 0, 0, 1] 0 80, unread)] :=
  have hv : ValidReads (handleConn (envOk fwdConnects)
      (validInput 1 [0] 1 [10, 0, 0, 1] 0 80 [])).trace 1 [0] 1 [10, 0, 0, 1] 0 80 :=
    ⟨rfl, by decide, Or.inl ⟨rfl, rfl⟩, by decide⟩
  have h := forwarder_called_iff_valid (envOk fwdConnects)
    (validInput 1 [0] 1 [10, 0, 0, 1] 0 80 [])
  ⟨h.1, h.2.1.mpr ⟨1, [0], 1, [10, 0, 0, 1], 0, 80, hv⟩, h.2.2.2 1 [0] 1 [10, 0, 0, 1] 0 80 hv⟩

end Socks5
